import Mathlib

/-!
# Random-walk samplers (`include/samplers/samplers.h`)

A shallow embedding of the sampling engine: direction generation, ball walk,
hit-and-run (random direction, coordinate direction, Boltzmann), billiard walk,
and the drivers that chain walk steps into point lists.

Modelling conventions.

* The number type `NT` is an arbitrary linearly ordered field `K` (exact
  arithmetic); every definition is computable and can be evaluated at `K = ℚ`.
* A `Point` of dimension `n` is its coordinate vector `Fin n → K`.
* Members of the body classes are pure functions of their arguments; an argument
  the C++ passes by reference to be updated (`lamdas`, `Ar`, `Av`, the direction
  of `compute_reflection`) is returned as a result.
* Random numbers are inputs: `Draw` holds the values one walk step takes out of
  the generators, a chain consumes a stream `Nat → Draw` and remembers its
  position in it.
* `unsigned int` counters and sizes are natural numbers. A function named after a
  driver gives the variables on return while no counter wraps (`rnum < 2^32 - 1`);
  the function with the suffix `_run` is the driver with its 32-bit counters and a
  bound `fuel` on the iterations run: it answers `none` when a loop has not exited
  or its behaviour is undefined.
* The functions with the suffix `_fp` keep, for each coordinate, whether the
  `double` is a finite number; the others compute in the field, which is what the
  C++ does as long as `1.0 / std::sqrt(normal)` divides by a non-zero number.
* `std::sqrt` and `std::pow` are the fields of a `CMath` record; where a statement
  needs them exact it says so (`SqrtExact`, `RootExact`), as they are over `ℝ`.
* Two records carry bookkeeping that the C++ does not keep: `BilliardState` counts
  the reflections and lists the lengths travelled, `WalkState` lists the
  `line_intersect_coord` calls with their arguments.
-/

namespace Samplers

/-- A point: the coordinate vector of dimension `n`. -/
abbrev Point (K : Type) (n : Nat) := Fin n → K

/-- The functions of `<cmath>` the samplers call. -/
structure CMath (K : Type) where
  /-- The function `std::sqrt`. -/
  sqrt : K → K
  /-- The function `std::pow`. -/
  pow : K → K → K

/-- The random values one walk step takes out of the generators. -/
structure Draw (K : Type) (n : Nat) where
  /-- The standard-normal variates `rdist(rng)` read by `get_direction`. -/
  Xs : Fin n → K
  /-- The value of `urdist(rng)` (or the uniform variate handed to `texp`). -/
  U : K
  /-- The value of `uidist(rng)`. -/
  coord : Nat

/-- The members of a convex body class that the samplers call. -/
structure ConvexBody (K : Type) (n : Nat) where
  /-- Member `num_of_hyperplanes()`. -/
  num_of_hyperplanes : Nat
  /-- Member `is_in(p)`; the value `-1` means strictly inside. -/
  is_in : Point K n → Int
  /-- Member `line_intersect(p, l)`, the pair `(min_plus, max_minus)`. -/
  line_intersect : Point K n → Point K n → K × K
  /-- Member `line_intersect_coord(p, rand_coord, lamdas)` with the new `lamdas`. -/
  line_intersect_coord : Point K n → Nat → List K → (K × K) × List K
  /-- Member `line_intersect_coord(p, p_prev, rand_coord, rand_coord_prev, lamdas)`
  with the new `lamdas`. -/
  line_intersect_coord_prev :
    Point K n → Point K n → Nat → Nat → List K → (K × K) × List K
  /-- Member `line_positive_intersect(p, v, Ar, Av)` with the new `Ar`, `Av`. -/
  line_positive_intersect :
    Point K n → Point K n → List K → List K → (K × Int) × List K × List K
  /-- Member `line_positive_intersect(p, v, Ar, Av, lambda_prev)` with the new
  `Ar`, `Av`. -/
  line_positive_intersect_prev :
    Point K n → Point K n → List K → List K → K → (K × Int) × List K × List K
  /-- Member `compute_reflection(v, p, facet)`: the new value of `v`. -/
  compute_reflection : Point K n → Point K n → Int → Point K n

/-- The members of `Spectrahedron` that the samplers call. -/
structure Spectrahedron (K : Type) (n : Nat) where
  /-- Member `boundaryOracle(pointVT, lVT)`, the pair `(min_plus, max_minus)`. -/
  boundaryOracle : Point K n → Point K n → K × K

/-- An intersection body of the nested driver: it is walked on through its own
members, and `second()` is the component whose `is_in` filters the samples. -/
structure BallPoly (K : Type) (n : Nat) extends ConvexBody K n where
  /-- Member `second()`. -/
  second : ConvexBody K n

/-- The fields of `var` that the drivers read (`var.rng` is the draw stream). -/
structure Parameters (K : Type) where
  /-- Field `var.n`. -/
  n : Nat
  /-- Field `var.delta`. -/
  delta : K
  /-- Field `var.ball_walk`. -/
  ball_walk : Bool
  /-- Field `var.cdhr_walk`. -/
  cdhr_walk : Bool

section Defs

variable {K : Type} [LinearOrderedField K] {n : Nat}

/-- Coordinate read `p[i]` (index out of range: `0`). -/
def coord (p : Point K n) (i : Nat) : K :=
  if h : i < n then p ⟨i, h⟩ else 0

/-- Coordinate write `p.set_coord(i, x)` (index out of range: no change). -/
def set_coord (p : Point K n) (i : Nat) (x : K) : Point K n :=
  fun j => if j.val = i then x else p j

/-- Function `get_direction(dim)`: the variates `Xs` scaled by
`1.0 / std::sqrt(sum of squares)`. When that square root is `0` the C++ divides
by zero and the coordinates are not finite numbers: see `get_direction_fp`. -/
def get_direction (m : CMath K) (dim : Nat) (Xs : Fin dim → K) : Point K dim :=
  let normal : K := ∑ i, Xs i * Xs i
  let normal : K := 1 / m.sqrt normal
  fun i => Xs i * normal

/-- Function `get_direction(dim, choleskyDecomp)`. -/
def get_direction_cholesky (m : CMath K) (dim : Nat) (Xs : Fin dim → K)
    (choleskyDecomp : Matrix (Fin dim) (Fin dim) K) : Point K dim :=
  let l := get_direction m dim Xs
  choleskyDecomp.mulVec l

/-- Function `get_point_in_Dsphere(dim, radius)`. -/
def get_point_in_Dsphere (m : CMath K) (dim : Nat) (radius : K)
    (Xs : Fin dim → K) (U : K) : Point K dim :=
  let p := get_direction m dim Xs
  let U := m.pow U (1 / (dim : K))
  (radius * U) • p

/-- Function `ball_walk(p, P, delta)`: the new value of `p`. -/
def ball_walk (m : CMath K) (P : ConvexBody K n) (delta : K)
    (Xs : Fin n → K) (U : K) (p : Point K n) : Point K n :=
  let y := get_point_in_Dsphere m n delta Xs U
  let y := y + p
  if P.is_in y = -1 then y else p

/-- Function `hit_and_run(p, P, var)`: the new value of `p`. -/
def hit_and_run (m : CMath K) (P : ConvexBody K n)
    (Xs : Fin n → K) (lambda : K) (p : Point K n) : Point K n :=
  let l := get_direction m n Xs
  let dbpair := P.line_intersect p l
  let min_plus := dbpair.1
  let max_minus := dbpair.2
  let b1 := min_plus • l + p
  let b2 := max_minus • l + p
  let p := lambda • b1
  (1 - lambda) • b2 + p

/-- Function `hit_and_run(point, spectrahedron, var)`: the new value of `point`. -/
def hit_and_run_spectrahedron (m : CMath K) (S : Spectrahedron K n)
    (Xs : Fin n → K) (lambda : K) (point : Point K n) : Point K n :=
  let l := get_direction m n Xs
  let dbpair := S.boundaryOracle point l
  let min_plus := dbpair.1
  let max_minus := dbpair.2
  let b1 := min_plus • l + point
  let b2 := max_minus • l + point
  let point := lambda • b1
  (1 - lambda) • b2 + point

/-- Dot product `c.dot(b)`. -/
def dot (c b : Point K n) : K := ∑ i, c i * b i

/-- Function `hit_and_run_Boltzmann`: the new value of `p`. The sampler `texp`
is a parameter; its last argument is the uniform variate it takes from `rng`. -/
def hit_and_run_Boltzmann (m : CMath K) (texp : K → K → K → K → K)
    (P : ConvexBody K n) (BoltzmannDirection : Point K n) (BoltzmannParameter : K)
    (choleskyDecomp : Matrix (Fin n) (Fin n) K)
    (Xs : Fin n → K) (u : K) (p : Point K n) : Point K n :=
  let l := get_direction_cholesky m n Xs choleskyDecomp
  let dbpair := P.line_intersect p l
  let min_plus := dbpair.1
  let max_minus := dbpair.2
  let b1 := min_plus • l + p
  let b2 := max_minus • l + p
  let c1 := dot BoltzmannDirection b1
  let c2 := dot BoltzmannDirection b2
  if c1 > c2 then
    let lambda := texp ((c1 - c2) / BoltzmannParameter) 0 (min_plus - max_minus) u
    lambda • l + b2
  else
    let lambda := -texp ((c2 - c1) / BoltzmannParameter) 0 (min_plus - max_minus) u
    lambda • l + b1

/-- Function `hit_and_run_coord_update(p, p_prev, P, rand_coord, rand_coord_prev,
kapa, lamdas)`: the new values of `p`, `p_prev` and `lamdas`. -/
def hit_and_run_coord_update (P : ConvexBody K n) (p p_prev : Point K n)
    (rand_coord rand_coord_prev : Nat) (kapa : K) (lamdas : List K) :
    Point K n × Point K n × List K :=
  let r := P.line_intersect_coord_prev p p_prev rand_coord rand_coord_prev lamdas
  let bpair := r.1
  let p_prev := p
  (set_coord p rand_coord (coord p rand_coord + bpair.1 + kapa * (bpair.2 - bpair.1)),
    p_prev, r.2)

/-- Function `hit_and_run(p, P, var, b1, b2)`: the new values of `p`, `b1` and
`b2`. -/
def hit_and_run_endpoints (m : CMath K) (P : ConvexBody K n)
    (Xs : Fin n → K) (lambda : K) (p : Point K n) :
    Point K n × Point K n × Point K n :=
  let l := get_direction m n Xs
  let dbpair := P.line_intersect p l
  let min_plus := dbpair.1
  let max_minus := dbpair.2
  let b1 := min_plus • l + p
  let b2 := max_minus • l + p
  let p := lambda • b1
  ((1 - lambda) • b2 + p, b1, b2)

/-- Function `hit_and_run_coord_update(p, p_prev, P, rand_coord, rand_coord_prev,
kapa, lamdas, bpair)`: the new values of `p`, `p_prev`, `lamdas` and `bpair`. -/
def hit_and_run_coord_update_bpair (P : ConvexBody K n) (p p_prev : Point K n)
    (rand_coord rand_coord_prev : Nat) (kapa : K) (lamdas : List K) :
    Point K n × Point K n × List K × (K × K) :=
  let r := P.line_intersect_coord_prev p p_prev rand_coord rand_coord_prev lamdas
  let bpair := r.1
  let p_prev := p
  (set_coord p rand_coord (coord p rand_coord + bpair.1 + kapa * (bpair.2 - bpair.1)),
    p_prev, r.2, bpair)

/-- Function `get_point_on_Dsphere(dim, radius)`. -/
def get_point_on_Dsphere (m : CMath K) (dim : Nat) (radius : K)
    (Xs : Fin dim → K) : Point K dim :=
  let p := get_direction m dim Xs
  if radius = 0 then p else radius • p

/-- The Euclidean norm of a point, taken with `std::sqrt`. -/
def euclidean_norm (m : CMath K) (p : Point K n) : K :=
  m.sqrt (∑ i, p i * p i)

/-- The function `std::sqrt` is exact: on a non-negative argument it answers the
non-negative square root. -/
def SqrtExact (m : CMath K) : Prop :=
  ∀ x : K, 0 ≤ x → 0 ≤ m.sqrt x ∧ m.sqrt x * m.sqrt x = x

/-- The function `std::pow` is exact on the exponents `1.0 / d`: on a non-negative
base it answers the non-negative `d`-th root. -/
def RootExact (m : CMath K) : Prop :=
  ∀ (x : K) (d : Nat), 0 ≤ x → 1 ≤ d →
    0 ≤ m.pow x (1 / (d : K)) ∧ m.pow x (1 / (d : K)) ^ d = x

/-- The end point that `hit_and_run_Boltzmann` assigns to `p` (by `p = b2` or by
`p = b1`) before it adds `lambda * l`. -/
def boltzmann_anchor (m : CMath K) (P : ConvexBody K n)
    (BoltzmannDirection : Point K n) (choleskyDecomp : Matrix (Fin n) (Fin n) K)
    (Xs : Fin n → K) (p : Point K n) : Point K n :=
  let l := get_direction_cholesky m n Xs choleskyDecomp
  let dbpair := P.line_intersect p l
  let b1 := dbpair.1 • l + p
  let b2 := dbpair.2 • l + p
  if dot BoltzmannDirection b1 > dot BoltzmannDirection b2 then b2 else b1

/-- The other end point of the chord of `hit_and_run_Boltzmann`. -/
def boltzmann_other (m : CMath K) (P : ConvexBody K n)
    (BoltzmannDirection : Point K n) (choleskyDecomp : Matrix (Fin n) (Fin n) K)
    (Xs : Fin n → K) (p : Point K n) : Point K n :=
  let l := get_direction_cholesky m n Xs choleskyDecomp
  let dbpair := P.line_intersect p l
  let b1 := dbpair.1 • l + p
  let b2 := dbpair.2 • l + p
  if dot BoltzmannDirection b1 > dot BoltzmannDirection b2 then b1 else b2

/-- The first argument that `hit_and_run_Boltzmann` passes to `texp`. -/
def boltzmann_rate (m : CMath K) (P : ConvexBody K n)
    (BoltzmannDirection : Point K n) (BoltzmannParameter : K)
    (choleskyDecomp : Matrix (Fin n) (Fin n) K)
    (Xs : Fin n → K) (p : Point K n) : K :=
  let l := get_direction_cholesky m n Xs choleskyDecomp
  let dbpair := P.line_intersect p l
  let b1 := dbpair.1 • l + p
  let b2 := dbpair.2 • l + p
  let c1 := dot BoltzmannDirection b1
  let c2 := dot BoltzmannDirection b2
  if c1 > c2 then (c1 - c2) / BoltzmannParameter else (c2 - c1) / BoltzmannParameter

/-- The value that `texp` returns to `hit_and_run_Boltzmann`. -/
def boltzmann_texp (m : CMath K) (texp : K → K → K → K → K) (P : ConvexBody K n)
    (BoltzmannDirection : Point K n) (BoltzmannParameter : K)
    (choleskyDecomp : Matrix (Fin n) (Fin n) K)
    (Xs : Fin n → K) (u : K) (p : Point K n) : K :=
  let l := get_direction_cholesky m n Xs choleskyDecomp
  let dbpair := P.line_intersect p l
  texp (boltzmann_rate m P BoltzmannDirection BoltzmannParameter choleskyDecomp Xs p)
    0 (dbpair.1 - dbpair.2) u

/-- The variable `lambda` of `hit_and_run_Boltzmann`: the value of `texp`, negated
in the `else` branch. -/
def boltzmann_lambda (m : CMath K) (texp : K → K → K → K → K) (P : ConvexBody K n)
    (BoltzmannDirection : Point K n) (BoltzmannParameter : K)
    (choleskyDecomp : Matrix (Fin n) (Fin n) K)
    (Xs : Fin n → K) (u : K) (p : Point K n) : K :=
  let l := get_direction_cholesky m n Xs choleskyDecomp
  let dbpair := P.line_intersect p l
  let b1 := dbpair.1 • l + p
  let b2 := dbpair.2 • l + p
  if dot BoltzmannDirection b1 > dot BoltzmannDirection b2 then
    boltzmann_texp m texp P BoltzmannDirection BoltzmannParameter choleskyDecomp Xs u p
  else
    -boltzmann_texp m texp P BoltzmannDirection BoltzmannParameter choleskyDecomp Xs u p

end Defs

/-- A call of `line_intersect_coord` with its arguments. -/
inductive OracleCall (K : Type) (n : Nat) where
  /-- The call `line_intersect_coord(p, rand_coord, lamdas)`. -/
  | direct (p : Point K n) (rand_coord : Nat) (lamdas : List K)
  /-- The call `line_intersect_coord(p, p_prev, rand_coord, rand_coord_prev, lamdas)`. -/
  | incremental (p p_prev : Point K n) (rand_coord rand_coord_prev : Nat)
      (lamdas : List K)

/-- The variables of a polytope chain that live across walk steps, with the list
of the `line_intersect_coord` calls made, which the C++ does not keep. -/
structure WalkState (K : Type) (n : Nat) where
  /-- The current point `p`. -/
  p : Point K n
  /-- The variable `p_prev`. -/
  p_prev : Point K n
  /-- The variable `rand_coord`. -/
  rand_coord : Nat
  /-- The variable `rand_coord_prev`. -/
  rand_coord_prev : Nat
  /-- The slack cache `lamdas`. -/
  lamdas : List K
  /-- The number of walk steps made so far: the position in the draw stream. -/
  t : Nat
  /-- The `line_intersect_coord` calls made so far, most recent first. -/
  calls : List (OracleCall K n)

/-- The variables of a chain that only carries its point. -/
structure ChainState (K : Type) (n : Nat) where
  /-- The current point. -/
  p : Point K n
  /-- The number of walk steps made so far: the position in the draw stream. -/
  t : Nat

/-- The variables of one `billiard_walk` call, with two counters that the C++
does not keep: the number of `compute_reflection` calls and the lengths by which
`p` was advanced. The locals `p0` and `v_prev` are written and never read. -/
structure BilliardState (K : Type) (n : Nat) where
  /-- The current point `p`. -/
  p : Point K n
  /-- The current direction `v`. -/
  v : Point K n
  /-- The remaining travel length `T`. -/
  T : K
  /-- The in/out parameter `lambda_prev`. -/
  lambda_prev : K
  /-- The in/out parameter `Ar`. -/
  Ar : List K
  /-- The in/out parameter `Av`. -/
  Av : List K
  /-- The loop counter `it`. -/
  it : Nat
  /-- Whether the branch `T <= pbpair.first` was taken (`return` or `break`). -/
  stopped : Bool
  /-- The number of `compute_reflection` calls made. -/
  reflections : Nat
  /-- The scalar lengths by which `p` was advanced, most recent first. -/
  segments : List K

section Drivers

variable {K : Type} [LinearOrderedField K] {n : Nat}

/-- The variables of `rand_point_generator` before its first walk step. The two
coordinates are not initialised by the C++ and are written before they are read. -/
def init_state (P : ConvexBody K n) (p : Point K n) : WalkState K n :=
  { p := p, p_prev := p, rand_coord := 0, rand_coord_prev := 0,
    lamdas := List.replicate P.num_of_hyperplanes 0, t := 0, calls := [] }

/-- The walk step made by `rand_point_generator` before its loops. -/
def first_step (m : CMath K) (P : ConvexBody K n) (var : Parameters K)
    (draws : Nat → Draw K n) (s : WalkState K n) : WalkState K n :=
  let d := draws s.t
  if var.ball_walk then
    { s with p := ball_walk m P var.delta d.Xs d.U s.p, t := s.t + 1 }
  else if var.cdhr_walk then
    let rand_coord := d.coord
    let kapa := d.U
    let r := P.line_intersect_coord s.p rand_coord s.lamdas
    let bpair := r.1
    { s with
      p := set_coord s.p rand_coord
        (coord s.p rand_coord + bpair.1 + kapa * (bpair.2 - bpair.1)),
      p_prev := s.p, rand_coord := rand_coord, lamdas := r.2, t := s.t + 1,
      calls := OracleCall.direct s.p rand_coord s.lamdas :: s.calls }
  else
    { s with p := hit_and_run m P d.Xs d.U s.p, t := s.t + 1 }

/-- The body of the inner loop of `rand_point_generator`: one walk step. -/
def walk_step (m : CMath K) (P : ConvexBody K n) (var : Parameters K)
    (draws : Nat → Draw K n) (s : WalkState K n) : WalkState K n :=
  let d := draws s.t
  if var.ball_walk then
    { s with p := ball_walk m P var.delta d.Xs d.U s.p, t := s.t + 1 }
  else if var.cdhr_walk then
    let rand_coord_prev := s.rand_coord
    let rand_coord := d.coord
    let kapa := d.U
    let r := hit_and_run_coord_update P s.p s.p_prev rand_coord rand_coord_prev
      kapa s.lamdas
    { p := r.1, p_prev := r.2.1, rand_coord := rand_coord,
      rand_coord_prev := rand_coord_prev, lamdas := r.2.2, t := s.t + 1,
      calls := OracleCall.incremental s.p s.p_prev rand_coord rand_coord_prev s.lamdas
        :: s.calls }
  else
    { s with p := hit_and_run m P d.Xs d.U s.p, t := s.t + 1 }

/-- The body of the outer loop of the polytope driver: `walk_len` walk steps,
then `randPoints.push_back(p)`. -/
def sample_block (m : CMath K) (P : ConvexBody K n) (var : Parameters K)
    (draws : Nat → Draw K n) (walk_len : Nat)
    (s : WalkState K n × List (Point K n)) : WalkState K n × List (Point K n) :=
  let w := (walk_step m P var draws)^[walk_len] s.1
  (w, s.2 ++ [w.p])

/-- Function `rand_point_generator(P, p, rnum, walk_len, randPoints, var)` for a
polytope: the final chain variables (with the new `p`) and the new `randPoints`,
on return (`rnum < 2^32 - 1`, see `rand_point_generator_run`). -/
def rand_point_generator (m : CMath K) (P : ConvexBody K n) (var : Parameters K)
    (draws : Nat → Draw K n) (p : Point K n) (rnum walk_len : Nat)
    (randPoints : List (Point K n)) : WalkState K n × List (Point K n) :=
  let s := first_step m P var draws (init_state P p)
  (sample_block m P var draws walk_len)^[rnum] (s, randPoints)

/-- One `hit_and_run(p, spectrahedron, var)` step of a chain. -/
def spectrahedron_step (m : CMath K) (S : Spectrahedron K n)
    (draws : Nat → Draw K n) (s : ChainState K n) : ChainState K n :=
  let d := draws s.t
  { p := hit_and_run_spectrahedron m S d.Xs d.U s.p, t := s.t + 1 }

/-- The body of the outer loop of the spectrahedron driver. -/
def spectrahedron_block (m : CMath K) (S : Spectrahedron K n)
    (draws : Nat → Draw K n) (walk_len : Nat)
    (s : ChainState K n × List (Point K n)) : ChainState K n × List (Point K n) :=
  let w := (spectrahedron_step m S draws)^[walk_len] s.1
  (w, s.2 ++ [w.p])

/-- Function `rand_point_generator(spectrahedron, p, rnum, walk_len, randPoints,
var)`: the final chain variables (with the new `p`) and the new `randPoints`, on
return (`rnum < 2^32 - 1`, see `rand_point_generator_spectrahedron_run`). -/
def rand_point_generator_spectrahedron (m : CMath K) (S : Spectrahedron K n)
    (draws : Nat → Draw K n) (p : Point K n) (rnum walk_len : Nat)
    (randPoints : List (Point K n)) : ChainState K n × List (Point K n) :=
  (spectrahedron_block m S draws walk_len)^[rnum] ({ p := p, t := 0 }, randPoints)

/-- The body of the outer loop of the nested-body driver: `walk_len` walk steps
on `PBLarge`, then the test `PBSmall.second().is_in(p) == -1` that guards
`randPoints.push_back(p)` and `++nump_PBSmall`. -/
def nested_block (m : CMath K) (PBLarge PBSmall : BallPoly K n) (var : Parameters K)
    (draws : Nat → Draw K n) (walk_len : Nat)
    (s : WalkState K n × List (Point K n) × Nat) :
    WalkState K n × List (Point K n) × Nat :=
  let w := (walk_step m PBLarge.toConvexBody var draws)^[walk_len] s.1
  if PBSmall.second.is_in w.p = -1 then (w, s.2.1 ++ [w.p], s.2.2 + 1)
  else (w, s.2.1, s.2.2)

/-- Function `rand_point_generator(PBLarge, p, rnum, walk_len, randPoints,
PBSmall, nump_PBSmall, var)`: the final chain variables (with the new `p`), the
new `randPoints` and the new `nump_PBSmall`, on return and while the counter does
not wrap (`rnum < 2^32 - 1` and `nump_PBSmall + rnum < 2^32`, see
`rand_point_generator_nested_run`). -/
def rand_point_generator_nested (m : CMath K) (PBLarge PBSmall : BallPoly K n)
    (var : Parameters K) (draws : Nat → Draw K n) (p : Point K n)
    (rnum walk_len : Nat) (randPoints : List (Point K n)) (nump_PBSmall : Nat) :
    WalkState K n × List (Point K n) × Nat :=
  let s := first_step m PBLarge.toConvexBody var draws
    (init_state PBLarge.toConvexBody p)
  (nested_block m PBLarge PBSmall var draws walk_len)^[rnum]
    (s, randPoints, nump_PBSmall)

/-- One `hit_and_run_Boltzmann` step of a chain. -/
def boltzmann_step (m : CMath K) (texp : K → K → K → K → K) (P : ConvexBody K n)
    (c : Point K n) (temperature : K) (covariance_matrix : Matrix (Fin n) (Fin n) K)
    (draws : Nat → Draw K n) (s : ChainState K n) : ChainState K n :=
  let d := draws s.t
  { p := hit_and_run_Boltzmann m texp P c temperature covariance_matrix d.Xs d.U s.p,
    t := s.t + 1 }

/-- Function `rand_point_generator_Boltzmann(P, c, p, walk_length, var,
temperature, covariance_matrix)`: the chain after `walk_length` steps, on return
(`walk_length < 2^32 - 1`, see `rand_point_generator_Boltzmann_run`). -/
def rand_point_generator_Boltzmann (m : CMath K) (texp : K → K → K → K → K)
    (P : ConvexBody K n) (c : Point K n) (temperature : K)
    (covariance_matrix : Matrix (Fin n) (Fin n) K) (draws : Nat → Draw K n)
    (walk_length : Nat) (s : ChainState K n) : ChainState K n :=
  (boltzmann_step m texp P c temperature covariance_matrix draws)^[walk_length] s

/-- The body of the outer loop of the multi-point Boltzmann driver:
`p = temp`, `walk_length` steps, `points.push_back(p)`. -/
def boltzmann_block (m : CMath K) (texp : K → K → K → K → K) (P : ConvexBody K n)
    (c : Point K n) (temperature : K) (covariance_matrix : Matrix (Fin n) (Fin n) K)
    (draws : Nat → Draw K n) (walk_length : Nat) (temp : Point K n)
    (s : ChainState K n × List (Point K n)) : ChainState K n × List (Point K n) :=
  let w := (boltzmann_step m texp P c temperature covariance_matrix draws)^[walk_length]
    { p := temp, t := s.1.t }
  (w, s.2 ++ [w.p])

/-- Function `rand_point_generator_Boltzmann(P, c, p, pointsNum, walk_length, var,
temperature, covariance_matrix, points)`: the final chain variables (with the
new `p`) and the new `points`, on return (`walk_length < 2^32 - 1` and
`pointsNum <= 2^31 - 1`, see `rand_point_generator_Boltzmann_points_run`). -/
def rand_point_generator_Boltzmann_points (m : CMath K) (texp : K → K → K → K → K)
    (P : ConvexBody K n) (c : Point K n) (temperature : K)
    (covariance_matrix : Matrix (Fin n) (Fin n) K) (draws : Nat → Draw K n)
    (p : Point K n) (pointsNum walk_length : Nat) (points : List (Point K n)) :
    ChainState K n × List (Point K n) :=
  let temp := p
  (boltzmann_block m texp P c temperature covariance_matrix draws walk_length temp)^[pointsNum]
    ({ p := p, t := 0 }, points)

/-- The block `if (first) { ... }` of `billiard_walk`. -/
def billiard_first (P : ConvexBody K n) (s : BilliardState K n) : BilliardState K n :=
  let r := P.line_positive_intersect s.p s.v s.Ar s.Av
  let pbpair := r.1
  if s.T ≤ pbpair.1 then
    { s with p := s.T • s.v + s.p, lambda_prev := s.T, Ar := r.2.1, Av := r.2.2,
             stopped := true, segments := s.T :: s.segments }
  else
    let lambda_prev := 0.995 * pbpair.1
    let p := lambda_prev • s.v + s.p
    let T := s.T - lambda_prev
    let v := P.compute_reflection s.v p pbpair.2
    { s with p := p, v := v, T := T, lambda_prev := lambda_prev, Ar := r.2.1,
             Av := r.2.2, reflections := s.reflections + 1,
             segments := lambda_prev :: s.segments }

/-- The loop `while (it < 3*n) { ... }` of `billiard_walk`, by recursion on the
number `3*n - it` of iterations still allowed. -/
def billiard_loop (P : ConvexBody K n) : Nat → BilliardState K n → BilliardState K n
  | 0, s => s
  | k + 1, s =>
    let r := P.line_positive_intersect_prev s.p s.v s.Ar s.Av s.lambda_prev
    let pbpair := r.1
    if s.T ≤ pbpair.1 then
      { s with p := s.T • s.v + s.p, lambda_prev := s.T, Ar := r.2.1, Av := r.2.2,
               stopped := true, segments := s.T :: s.segments }
    else
      let lambda_prev := 0.995 * pbpair.1
      let p := lambda_prev • s.v + s.p
      let T := s.T - lambda_prev
      let v := P.compute_reflection s.v p pbpair.2
      billiard_loop P k
        { s with p := p, v := v, T := T, lambda_prev := lambda_prev, Ar := r.2.1,
                 Av := r.2.2, it := s.it + 1, reflections := s.reflections + 1,
                 segments := lambda_prev :: s.segments }

/-- The variables of `billiard_walk` before the block `if (first)`: `T` and `v`
are drawn on every call. -/
def billiard_init (m : CMath K) (p : Point K n) (che_rad : K) (Ar Av : List K)
    (lambda_prev : K) (Xs : Fin n → K) (U : K) : BilliardState K n :=
  { p := p, v := get_direction m n Xs, T := U * che_rad, lambda_prev := lambda_prev,
    Ar := Ar, Av := Av, it := 0, stopped := false, reflections := 0, segments := [] }

/-- The variables of `billiard_walk` when control reaches its loop or, after the
`return` of the block `if (first)`, its end. -/
def billiard_entry (m : CMath K) (P : ConvexBody K n) (p : Point K n) (che_rad : K)
    (Ar Av : List K) (lambda_prev : K) (Xs : Fin n → K) (U : K) (first : Bool) :
    BilliardState K n :=
  let s := billiard_init m p che_rad Ar Av lambda_prev Xs U
  if first then billiard_first P s else s

/-- Function `billiard_walk(P, p, che_rad, Ar, Av, lambda_prev, var, first)`: the
variables on return, with the new `p`, `lambda_prev`, `Ar` and `Av`. The dimension
`P.dimension()` is the dimension `n` of the points. -/
def billiard_walk (m : CMath K) (P : ConvexBody K n) (p : Point K n) (che_rad : K)
    (Ar Av : List K) (lambda_prev : K) (Xs : Fin n → K) (U : K) (first : Bool) :
    BilliardState K n :=
  let s := billiard_entry m P p che_rad Ar Av lambda_prev Xs U first
  if s.stopped then s else billiard_loop P (3 * n) s

end Drivers

/-- The quantity conserved by a `billiard_walk` call: the length travelled plus,
while the branch `T <= pbpair.first` has not been taken, the remaining length. -/
def billiard_budget {K : Type} [LinearOrderedField K] {n : Nat}
    (s : BilliardState K n) : K :=
  s.segments.sum + (if s.stopped then 0 else s.T)

/-- A chain of `hit_and_run` steps, one for each element of `draws`. -/
def hit_and_run_chain {K : Type} [LinearOrderedField K] {n : Nat}
    (m : CMath K) (P : ConvexBody K n) (draws : List (Draw K n))
    (p : Point K n) : Point K n :=
  draws.foldl (fun q d => hit_and_run m P d.Xs d.U q) p

/-- The point `p` at which a call is made. -/
def OracleCall.point {K : Type} {n : Nat} : OracleCall K n → Point K n
  | .direct p _ _ => p
  | .incremental p _ _ _ _ => p

/-- The coordinate `rand_coord` for which a call is made. -/
def OracleCall.coordinate {K : Type} {n : Nat} : OracleCall K n → Nat
  | .direct _ rand_coord _ => rand_coord
  | .incremental _ _ rand_coord _ _ => rand_coord

/-- The value of `lamdas` when a call returns. -/
def OracleCall.lamdas_after {K : Type} {n : Nat} (P : ConvexBody K n) :
    OracleCall K n → List K
  | .direct p rand_coord lamdas => (P.line_intersect_coord p rand_coord lamdas).2
  | .incremental p p_prev rand_coord rand_coord_prev lamdas =>
    (P.line_intersect_coord_prev p p_prev rand_coord rand_coord_prev lamdas).2

/-- The call `q'` is an incremental one and receives `lamdas` as the call `q`
left it. -/
def same_cache {K : Type} {n : Nat} (P : ConvexBody K n) (q q' : OracleCall K n) : Prop :=
  match q' with
  | .direct _ _ _ => False
  | .incremental _ _ _ _ lamdas => lamdas = q.lamdas_after P

/-- If the call `q'` is an incremental one, its `p_prev` is the point of the call
`q`, its `rand_coord_prev` is the coordinate of `q`, and its `p` differs from its
`p_prev` in no other coordinate. -/
def from_previous {K : Type} {n : Nat} (q q' : OracleCall K n) : Prop :=
  match q' with
  | .direct _ _ _ => True
  | .incremental p p_prev _ rand_coord_prev _ =>
    p_prev = q.point ∧ rand_coord_prev = q.coordinate ∧
    ∀ i : Fin n, i.val ≠ rand_coord_prev → p i = p_prev i

/-- The loop `for (unsigned int i = 1; i <= bound; ++i) body`, entered with the
value `i` of its counter: the variables when the loop exits, `none` when it has
not exited after `fuel` tests of its condition. The counter wraps at `2^32`. -/
def for_upto {σ : Type} (bound : Nat) (body : σ → σ) : Nat → Nat → σ → Option σ
  | 0, _, _ => none
  | fuel + 1, i, s =>
    if i ≤ bound then for_upto bound body fuel ((i + 1) % 2 ^ 32) (body s) else some s

/-- The loop `for (int at = 0; at < bound; at++) body`, entered with the value `a`
of its counter, for a body that may itself not return: `none` when the body does
not return, when `at++` overflows `int` (undefined behaviour), or when the loop
has not exited after `fuel` tests of its condition. -/
def for_int_below {σ : Type} (bound : Nat) (body : σ → Option σ) :
    Nat → Nat → σ → Option σ
  | 0, _, _ => none
  | fuel + 1, a, s =>
    if a < bound then
      if a = 2 ^ 31 - 1 then none
      else (body s).bind (for_int_below bound body fuel (a + 1))
    else some s

section Runs

variable {K : Type} [LinearOrderedField K] {n : Nat}

/-- Function `rand_point_generator(P, p, rnum, walk_len, randPoints, var)` for a
polytope, with the unsigned counter of its outer loop. -/
def rand_point_generator_run (m : CMath K) (P : ConvexBody K n) (var : Parameters K)
    (draws : Nat → Draw K n) (p : Point K n) (rnum walk_len : Nat)
    (randPoints : List (Point K n)) (fuel : Nat) :
    Option (WalkState K n × List (Point K n)) :=
  let s := first_step m P var draws (init_state P p)
  for_upto rnum (sample_block m P var draws walk_len) fuel 1 (s, randPoints)

/-- Function `rand_point_generator(spectrahedron, p, rnum, walk_len, randPoints,
var)`, with the unsigned counter of its outer loop. -/
def rand_point_generator_spectrahedron_run (m : CMath K) (S : Spectrahedron K n)
    (draws : Nat → Draw K n) (p : Point K n) (rnum walk_len : Nat)
    (randPoints : List (Point K n)) (fuel : Nat) :
    Option (ChainState K n × List (Point K n)) :=
  for_upto rnum (spectrahedron_block m S draws walk_len) fuel 1
    ({ p := p, t := 0 }, randPoints)

/-- Function `rand_point_generator_Boltzmann(P, c, p, walk_length, var,
temperature, covariance_matrix)`, with the unsigned counter of its loop. -/
def rand_point_generator_Boltzmann_run (m : CMath K) (texp : K → K → K → K → K)
    (P : ConvexBody K n) (c : Point K n) (temperature : K)
    (covariance_matrix : Matrix (Fin n) (Fin n) K) (draws : Nat → Draw K n)
    (walk_length : Nat) (s : ChainState K n) (fuel : Nat) : Option (ChainState K n) :=
  for_upto walk_length (boltzmann_step m texp P c temperature covariance_matrix draws)
    fuel 1 s

/-- The body of the outer loop of the multi-point Boltzmann driver, with the
unsigned counter of its inner loop: `p = temp`, the inner loop,
`points.push_back(p)`. -/
def boltzmann_block_run (m : CMath K) (texp : K → K → K → K → K) (P : ConvexBody K n)
    (c : Point K n) (temperature : K) (covariance_matrix : Matrix (Fin n) (Fin n) K)
    (draws : Nat → Draw K n) (walk_length : Nat) (temp : Point K n) (fuel : Nat)
    (s : ChainState K n × List (Point K n)) :
    Option (ChainState K n × List (Point K n)) :=
  (for_upto walk_length (boltzmann_step m texp P c temperature covariance_matrix draws)
    fuel 1 { p := temp, t := s.1.t }).map (fun w => (w, s.2 ++ [w.p]))

/-- Function `rand_point_generator_Boltzmann(P, c, p, pointsNum, walk_length, var,
temperature, covariance_matrix, points)`, with the `int` counter of its outer
loop and the unsigned counter of its inner loop. -/
def rand_point_generator_Boltzmann_points_run (m : CMath K)
    (texp : K → K → K → K → K) (P : ConvexBody K n) (c : Point K n) (temperature : K)
    (covariance_matrix : Matrix (Fin n) (Fin n) K) (draws : Nat → Draw K n)
    (p : Point K n) (pointsNum walk_length : Nat) (points : List (Point K n))
    (fuel : Nat) : Option (ChainState K n × List (Point K n)) :=
  let temp := p
  for_int_below pointsNum
    (boltzmann_block_run m texp P c temperature covariance_matrix draws walk_length temp
      fuel)
    fuel 0 ({ p := p, t := 0 }, points)

/-- The product of two `double`s, each a finite number or not (`none`): finite
when both are. -/
def fp_mul (a b : Option K) : Option K :=
  match a, b with
  | some x, some y => some (x * y)
  | _, _ => none

/-- The sum of two `double`s, each a finite number or not (`none`): finite when
both are. -/
def fp_add (a b : Option K) : Option K :=
  match a, b with
  | some x, some y => some (x + y)
  | _, _ => none

/-- The quotient of two finite `double`s: finite when the divisor is not `0`. -/
def fp_div (x y : K) : Option K :=
  if y = 0 then none else some (x / y)

/-- Function `get_direction(dim)`, each coordinate a finite number or not. -/
def get_direction_fp (m : CMath K) (dim : Nat) (Xs : Fin dim → K) : Fin dim → Option K :=
  let normal : K := ∑ i, Xs i * Xs i
  let normal : Option K := fp_div 1 (m.sqrt normal)
  fun i => fp_mul (some (Xs i)) normal

/-- Function `get_point_in_Dsphere(dim, radius)`, each coordinate a finite number
or not. -/
def get_point_in_Dsphere_fp (m : CMath K) (dim : Nat) (radius : K)
    (Xs : Fin dim → K) (U : K) : Fin dim → Option K :=
  let p := get_direction_fp m dim Xs
  let U : Option K := (fp_div 1 (dim : K)).map (m.pow U)
  fun i => fp_mul (fp_mul (some radius) U) (p i)

/-- Function `ball_walk(p, P, delta)`, each coordinate a finite number or not; the
member `is_in` is asked at such a point. -/
def ball_walk_fp (m : CMath K) (is_in : (Fin n → Option K) → Int) (delta : K)
    (Xs : Fin n → K) (U : K) (p : Fin n → Option K) : Fin n → Option K :=
  let y := get_point_in_Dsphere_fp m n delta Xs U
  let y := fun i => fp_add (y i) (p i)
  if is_in y = -1 then y else p

end Runs

section Examples

/-- The `<cmath>` record used in the examples: in dimension one, with variates
`±1`, `std::sqrt` is only called at `1` and `std::pow` only with exponent `1`. -/
def cmathQ : CMath ℚ :=
  { sqrt := fun x => x, pow := fun x _ => x }

/-- The interval `[-1, 1]` as a body of dimension one, with exact oracles; the
facet `0` is the end `1` and the facet `1` is the end `-1`. -/
def interval : ConvexBody ℚ 1 :=
  { num_of_hyperplanes := 2
    is_in := fun p => if -1 < p 0 ∧ p 0 < 1 then -1 else 0
    line_intersect := fun p l =>
      if 0 < l 0 then ((1 - p 0) / l 0, (-1 - p 0) / l 0)
      else if l 0 < 0 then ((-1 - p 0) / l 0, (1 - p 0) / l 0)
      else (0, 0)
    line_intersect_coord := fun p _ lamdas => ((1 - p 0, -1 - p 0), lamdas)
    line_intersect_coord_prev := fun p _ _ _ lamdas => ((1 - p 0, -1 - p 0), lamdas)
    line_positive_intersect := fun p v Ar Av =>
      if 0 < v 0 then (((1 - p 0) / v 0, 0), Ar, Av)
      else if v 0 < 0 then (((-1 - p 0) / v 0, 1), Ar, Av)
      else ((0, 2), Ar, Av)
    line_positive_intersect_prev := fun p v Ar Av _ =>
      if 0 < v 0 then (((1 - p 0) / v 0, 0), Ar, Av)
      else if v 0 < 0 then (((-1 - p 0) / v 0, 1), Ar, Av)
      else ((0, 2), Ar, Av)
    compute_reflection := fun v _ _ => -v }

/-- The interval `[-1, 1]` as a set of points of dimension one. -/
def intervalSet : Set (Point ℚ 1) := {x | -1 ≤ x 0 ∧ x 0 ≤ 1}

/-- The interval `[-1, 1]` with a `line_intersect` that answers twice the
parameter of the end `1`: both end points of its chord are that end. -/
def stickyInterval : ConvexBody ℚ 1 :=
  { interval with
    line_intersect := fun p l =>
      if l 0 = 0 then (0, 0) else ((1 - p 0) / l 0, (1 - p 0) / l 0) }

/-- The parameters that select general hit-and-run. -/
def hrVar : Parameters ℚ :=
  { n := 1, delta := 0, ball_walk := false, cdhr_walk := false }

/-- The parameters that select coordinate-direction hit-and-run. -/
def cdhrVar : Parameters ℚ :=
  { n := 1, delta := 0, ball_walk := false, cdhr_walk := true }

/-- A draw stream: the variate `1`, the uniform value `1/4`, the coordinate `0`. -/
def unitDraws : Nat → Draw ℚ 1 :=
  fun _ => { Xs := fun _ => 1, U := 1 / 4, coord := 0 }

/-- A stand-in for `texp(rate, lo, hi, rng)`: the point of `[lo, hi]` at the
fraction `u`. -/
def texpLinear : ℚ → ℚ → ℚ → ℚ → ℚ :=
  fun _ lo hi u => lo + u * (hi - lo)

/-- The interval `[-1, 1]` as an intersection body whose second component is the
interval itself. -/
def intervalPair : BallPoly ℚ 1 :=
  { interval with second := interval }

end Examples

/-! ## Billiard walk -/

section Billiard

variable {K : Type} [LinearOrderedField K] {n : Nat}

theorem billiard_init_stopped (m : CMath K) (p : Point K n) (che_rad : K)
    (Ar Av : List K) (lambda_prev : K) (Xs : Fin n → K) (U : K) :
    (billiard_init m p che_rad Ar Av lambda_prev Xs U).stopped = false := rfl

theorem billiard_first_reflections_le (P : ConvexBody K n) (s : BilliardState K n) :
    (billiard_first P s).reflections ≤ s.reflections + 1 := by
  unfold billiard_first
  dsimp only
  split_ifs <;> simp

theorem billiard_loop_reflections_le (P : ConvexBody K n) (k : Nat) :
    ∀ s : BilliardState K n, (billiard_loop P k s).reflections ≤ s.reflections + k := by
  induction k with
  | zero => intro s; simp [billiard_loop]
  | succ k ih =>
    intro s
    simp only [billiard_loop]
    split_ifs
    · simp
    · refine le_trans (ih _) ?_
      simp only
      omega

theorem billiard_first_budget (P : ConvexBody K n) (s : BilliardState K n)
    (hs : s.stopped = false) :
    billiard_budget (billiard_first P s) = s.segments.sum + s.T := by
  unfold billiard_first
  dsimp only
  split_ifs with h
  · simp [billiard_budget, add_comm]
  · simp only [billiard_budget, hs, List.sum_cons, Bool.false_eq_true, if_false]
    ring

theorem billiard_loop_budget (P : ConvexBody K n) (k : Nat) :
    ∀ s : BilliardState K n, s.stopped = false →
      billiard_budget (billiard_loop P k s) = s.segments.sum + s.T := by
  induction k with
  | zero => intro s hs; simp [billiard_loop, billiard_budget, hs]
  | succ k ih =>
    intro s hs
    simp only [billiard_loop]
    split_ifs with h
    · simp [billiard_budget, add_comm]
    · rw [ih]
      · simp only [List.sum_cons]
        ring
      · exact hs

theorem billiard_entry_budget (m : CMath K) (P : ConvexBody K n) (p : Point K n)
    (che_rad : K) (Ar Av : List K) (lambda_prev : K) (Xs : Fin n → K) (U : K)
    (first : Bool) :
    billiard_budget (billiard_entry m P p che_rad Ar Av lambda_prev Xs U first)
      = U * che_rad := by
  unfold billiard_entry
  dsimp only
  split_ifs with h
  · rw [billiard_first_budget P _ (billiard_init_stopped ..)]
    simp [billiard_init]
  · simp [billiard_budget, billiard_init]

theorem billiard_walk_budget (m : CMath K) (P : ConvexBody K n) (p : Point K n)
    (che_rad : K) (Ar Av : List K) (lambda_prev : K) (Xs : Fin n → K) (U : K)
    (first : Bool) :
    billiard_budget (billiard_walk m P p che_rad Ar Av lambda_prev Xs U first)
      = U * che_rad := by
  have he := billiard_entry_budget m P p che_rad Ar Av lambda_prev Xs U first
  unfold billiard_walk
  dsimp only
  split_ifs with h
  · exact he
  · have h0 : (billiard_entry m P p che_rad Ar Av lambda_prev Xs U first).stopped = false := by
      simpa using h
    rw [billiard_loop_budget P _ _ h0]
    simpa [billiard_budget, h0] using he

/-- Claim C1, as the code has it: a steady call (`first = false`) of
`billiard_walk` makes at most `3 * n` calls of `compute_reflection`, and a
bootstrap call (`first = true`) at most `3 * n + 1`: the reflection of the block
`if (first)` is made before the loop and is not counted by `it`. -/
theorem billiard_walk_reflections_le (m : CMath K) (P : ConvexBody K n)
    (p : Point K n) (che_rad : K) (Ar Av : List K) (lambda_prev : K)
    (Xs : Fin n → K) (U : K) :
    (billiard_walk m P p che_rad Ar Av lambda_prev Xs U false).reflections ≤ 3 * n ∧
    (billiard_walk m P p che_rad Ar Av lambda_prev Xs U true).reflections ≤ 3 * n + 1 := by
  constructor
  · unfold billiard_walk billiard_entry
    simp only [Bool.false_eq_true, if_false, billiard_init_stopped]
    refine le_trans (billiard_loop_reflections_le P _ _) ?_
    simp [billiard_init]
  · have h1 := billiard_first_reflections_le P
      (billiard_init m p che_rad Ar Av lambda_prev Xs U)
    have h0 : (billiard_init m p che_rad Ar Av lambda_prev Xs U).reflections = 0 := rfl
    unfold billiard_walk billiard_entry
    simp only [if_true]
    split_ifs
    · omega
    · refine le_trans (billiard_loop_reflections_le P _ _) ?_
      omega

/-- Claim C1 fails as stated: on the interval `[-1, 1]` (dimension `1`), from
`p = 0` with direction `1` and travel length `T = 0.5 * 200`, a bootstrap call
makes `4` reflections, more than `3 * 1`. -/
theorem billiard_walk_reflections_exceed :
    ¬ (billiard_walk cmathQ interval (fun _ => 0) 200 [] [] 0 (fun _ => 1) (1 / 2)
        true).reflections ≤ 3 * 1 := by
  have h : (billiard_walk cmathQ interval (fun _ => 0) 200 [] [] 0 (fun _ => 1) (1 / 2)
      true).reflections = 4 := by
    simp [billiard_walk, billiard_entry, billiard_init, billiard_first, billiard_loop,
      get_direction, cmathQ, interval]
    norm_num
  rw [h]
  decide

/-- Claim C2: when a `billiard_walk` call ends through the branch
`T <= pbpair.first` (in the block `if (first)` or in the loop), the lengths by
which `p` was advanced sum to the drawn travel length `U * che_rad`. -/
theorem billiard_walk_path_length (m : CMath K) (P : ConvexBody K n)
    (p : Point K n) (che_rad : K) (Ar Av : List K) (lambda_prev : K)
    (Xs : Fin n → K) (U : K) (first : Bool)
    (h : (billiard_walk m P p che_rad Ar Av lambda_prev Xs U first).stopped = true) :
    (billiard_walk m P p che_rad Ar Av lambda_prev Xs U first).segments.sum
      = U * che_rad := by
  have hb := billiard_walk_budget m P p che_rad Ar Av lambda_prev Xs U first
  simpa [billiard_budget, h] using hb

/-- Claim C2 at a concrete input: on the interval `[-1, 1]`, from `p = 0` with
direction `1` and `T = 0.5 * 3`, a steady call advances by `0.995`, reflects,
and ends with the advance `0.505`. -/
theorem billiard_walk_path_length_witness :
    (billiard_walk cmathQ interval (fun _ => 0) 3 [] [] 0 (fun _ => 1) (1 / 2)
        false).segments = [101 / 200, 199 / 200] ∧
    (billiard_walk cmathQ interval (fun _ => 0) 3 [] [] 0 (fun _ => 1) (1 / 2)
        false).segments.sum = 1 / 2 * 3 :=
  ⟨by
    simp [billiard_walk, billiard_entry, billiard_init, billiard_loop,
      get_direction, cmathQ, interval]
    norm_num,
   billiard_walk_path_length cmathQ interval (fun _ => 0) 3 [] [] 0 (fun _ => 1) (1 / 2)
    false (by
      simp [billiard_walk, billiard_entry, billiard_init, billiard_loop,
        get_direction, cmathQ, interval]
      norm_num)⟩

end Billiard

/-! ## Ball walk and hit-and-run -/

section Walks

variable {K : Type} [LinearOrderedField K] {n : Nat}

theorem hit_and_run_add_smul (m : CMath K) (P : ConvexBody K n) (Xs : Fin n → K)
    (lambda : K) (p : Point K n) :
    hit_and_run m P Xs lambda p
      = p + (lambda * (P.line_intersect p (get_direction m n Xs)).1
              + (1 - lambda) * (P.line_intersect p (get_direction m n Xs)).2)
            • get_direction m n Xs := by
  unfold hit_and_run
  dsimp only
  ext i
  simp only [Pi.add_apply, Pi.smul_apply, smul_eq_mul]
  ring

/-- Claim C4: one `hit_and_run` step replaces `p` by `lambda * b1 + (1 - lambda) * b2`
with `b1 = p + min_plus * l` and `b2 = p + max_minus * l`, that is by
`p + (lambda * min_plus + (1 - lambda) * max_minus) * l`, whatever pair the oracle
answers. -/
theorem hit_and_run_eq (m : CMath K) (P : ConvexBody K n) (Xs : Fin n → K)
    (lambda : K) (p : Point K n) :
    hit_and_run m P Xs lambda p
      = lambda • (p + (P.line_intersect p (get_direction m n Xs)).1 • get_direction m n Xs)
        + (1 - lambda)
          • (p + (P.line_intersect p (get_direction m n Xs)).2 • get_direction m n Xs) ∧
    hit_and_run m P Xs lambda p
      = p + (lambda * (P.line_intersect p (get_direction m n Xs)).1
              + (1 - lambda) * (P.line_intersect p (get_direction m n Xs)).2)
            • get_direction m n Xs := by
  refine ⟨?_, hit_and_run_add_smul m P Xs lambda p⟩
  unfold hit_and_run
  dsimp only
  rw [add_comm, add_comm _ p, add_comm _ p]

/-- Claim C5: `ball_walk` sets `p` to `y = p + u`, with `u` the offset drawn by
`get_point_in_Dsphere(dim, delta)`, when `P.is_in(y)` is `-1`, and leaves `p` as
it is for every other answer. -/
theorem ball_walk_accept_iff (m : CMath K) (P : ConvexBody K n) (delta : K)
    (Xs : Fin n → K) (U : K) (p : Point K n) :
    (P.is_in (p + get_point_in_Dsphere m n delta Xs U) = -1 →
      ball_walk m P delta Xs U p = p + get_point_in_Dsphere m n delta Xs U) ∧
    (P.is_in (p + get_point_in_Dsphere m n delta Xs U) ≠ -1 →
      ball_walk m P delta Xs U p = p) := by
  unfold ball_walk
  dsimp only
  rw [add_comm (get_point_in_Dsphere m n delta Xs U) p]
  constructor
  · intro h
    rw [if_pos h]
  · intro h
    rw [if_neg h]

end Walks

/-! ## Hit-and-run chains and interior points -/

section Interior

variable {K : Type} [LinearOrderedField K] [TopologicalSpace K] [OrderTopology K] {n : Nat}

/-- On the ray from an interior point `p` to a point `p + c • l` of a convex set,
every point strictly before the end is interior. -/
theorem mem_interior_of_lt_end (S : Set (Point K n)) (hS : Convex K S)
    (p l : Point K n) (c θ : K) (hp : p ∈ interior S) (hc : p + c • l ∈ S)
    (h0 : 0 ≤ θ) (h1 : θ < 1) : p + (θ * c) • l ∈ interior S := by
  have key := hS.add_smul_sub_mem_interior hc hp (t := 1 - θ)
    ⟨by linarith, by linarith⟩
  convert key using 1
  ext i
  simp only [Pi.add_apply, Pi.smul_apply, Pi.sub_apply, smul_eq_mul]
  ring

theorem mem_interior_of_between (S : Set (Point K n)) (hS : Convex K S)
    (p l : Point K n) (c t : K) (hp : p ∈ interior S) (hc : p + c • l ∈ S)
    (h : (0 ≤ t ∧ t < c) ∨ (c < t ∧ t ≤ 0)) : p + t • l ∈ interior S := by
  have hcne : c ≠ 0 := by
    rcases h with h | h
    · exact (lt_of_le_of_lt h.1 h.2).ne'
    · exact (lt_of_lt_of_le h.1 h.2).ne
  have ht : t = t / c * c := by field_simp
  rw [ht]
  refine mem_interior_of_lt_end S hS p l c (t / c) hp hc ?_ ?_
  · rcases h with h | h
    · exact div_nonneg h.1 (h.1.trans h.2.le)
    · exact div_nonneg_of_nonpos h.2 (h.1.le.trans h.2)
  · rcases h with h | h
    · rw [div_lt_one (lt_of_le_of_lt h.1 h.2)]; exact h.2
    · rw [div_lt_one_of_neg (lt_of_lt_of_le h.1 h.2)]; exact h.1

theorem hit_and_run_mem_interior (S : Set (Point K n)) (hS : Convex K S)
    (m : CMath K) (P : ConvexBody K n) (Xs : Fin n → K) (lambda : K) (p : Point K n)
    (hp : p ∈ interior S)
    (h1 : p + (P.line_intersect p (get_direction m n Xs)).1 • get_direction m n Xs ∈ S)
    (h2 : p + (P.line_intersect p (get_direction m n Xs)).2 • get_direction m n Xs ∈ S)
    (heq : (P.line_intersect p (get_direction m n Xs)).1
        = (P.line_intersect p (get_direction m n Xs)).2 →
      p + (P.line_intersect p (get_direction m n Xs)).1 • get_direction m n Xs
        ∈ interior S)
    (hl0 : 0 < lambda) (hl1 : lambda < 1) :
    hit_and_run m P Xs lambda p ∈ interior S := by
  rw [hit_and_run_add_smul m P Xs lambda p]
  generalize get_direction m n Xs = l at *
  generalize (P.line_intersect p l).1 = a at *
  generalize (P.line_intersect p l).2 = b at *
  rcases lt_trichotomy a b with hab | hab | hab
  · have hta : a < lambda * a + (1 - lambda) * b := by nlinarith
    have htb : lambda * a + (1 - lambda) * b < b := by nlinarith
    rcases le_or_lt 0 (lambda * a + (1 - lambda) * b) with ht | ht
    · exact mem_interior_of_between S hS p l b _ hp h2 (Or.inl ⟨ht, htb⟩)
    · exact mem_interior_of_between S hS p l a _ hp h1 (Or.inr ⟨hta, ht.le⟩)
  · have : lambda * a + (1 - lambda) * b = a := by rw [← hab]; ring
    rw [this]
    exact heq hab
  · have hta : lambda * a + (1 - lambda) * b < a := by nlinarith
    have htb : b < lambda * a + (1 - lambda) * b := by nlinarith
    rcases le_or_lt 0 (lambda * a + (1 - lambda) * b) with ht | ht
    · exact mem_interior_of_between S hS p l a _ hp h1 (Or.inl ⟨ht, hta⟩)
    · exact mem_interior_of_between S hS p l b _ hp h2 (Or.inr ⟨htb, ht.le⟩)

theorem hit_and_run_chain_mem_interior (S : Set (Point K n)) (hS : Convex K S)
    (m : CMath K) (P : ConvexBody K n)
    (horacle : ∀ p ∈ interior S, ∀ l : Point K n,
      p + (P.line_intersect p l).1 • l ∈ S ∧ p + (P.line_intersect p l).2 • l ∈ S ∧
      ((P.line_intersect p l).1 = (P.line_intersect p l).2 →
        p + (P.line_intersect p l).1 • l ∈ interior S))
    (draws : List (Draw K n)) :
    ∀ p0 : Point K n, (∀ d ∈ draws, 0 < d.U ∧ d.U < 1) → p0 ∈ interior S →
      hit_and_run_chain m P draws p0 ∈ interior S := by
  induction draws with
  | nil => intro p0 _ hp0; exact hp0
  | cons d ds ih =>
    intro p0 hd hp0
    have hstep : hit_and_run m P d.Xs d.U p0 ∈ interior S := by
      obtain ⟨h1, h2, heq⟩ := horacle p0 hp0 (get_direction m n d.Xs)
      exact hit_and_run_mem_interior S hS m P d.Xs d.U p0 hp0 h1 h2 heq
        (hd d (List.mem_cons_self d ds)).1 (hd d (List.mem_cons_self d ds)).2
    exact ih _ (fun e he => hd e (List.mem_cons_of_mem d he)) hstep

/-- Claim C3, as the code has it: for a convex set `S` and a `line_intersect` that,
at every interior point `p` and direction `l`, answers parameters whose two end
points lie in `S` and, when the two parameters are equal, are an interior point,
every point of a `hit_and_run` chain started at an interior point, with every
drawn `lambda` in `(0, 1)`, is interior to `S`. -/
theorem hit_and_run_chain_interior (S : Set (Point K n)) (hS : Convex K S)
    (m : CMath K) (P : ConvexBody K n)
    (horacle : ∀ p ∈ interior S, ∀ l : Point K n,
      p + (P.line_intersect p l).1 • l ∈ S ∧ p + (P.line_intersect p l).2 • l ∈ S ∧
      ((P.line_intersect p l).1 = (P.line_intersect p l).2 →
        p + (P.line_intersect p l).1 • l ∈ interior S))
    (draws : List (Draw K n)) (hdraws : ∀ d ∈ draws, 0 < d.U ∧ d.U < 1)
    (p0 : Point K n) (hp0 : p0 ∈ interior S) (k : Nat) :
    hit_and_run_chain m P (draws.take k) p0 ∈ interior S :=
  hit_and_run_chain_mem_interior S hS m P horacle (draws.take k) p0
    (fun d hd => hdraws d (List.mem_of_mem_take hd)) hp0

end Interior

theorem convex_intervalSet : Convex ℚ intervalSet := by
  intro x hx y hy a b ha hb hab
  simp only [intervalSet, Set.mem_setOf_eq, Pi.add_apply, Pi.smul_apply, smul_eq_mul] at hx hy ⊢
  constructor
  · nlinarith [hx.1, hy.1]
  · nlinarith [hx.2, hy.2]

theorem mem_interior_intervalSet (x : Point ℚ 1) :
    x ∈ interior intervalSet ↔ -1 < x 0 ∧ x 0 < 1 := by
  have h : intervalSet
      = Set.preimage (Homeomorph.funUnique (Fin 1) ℚ) (Set.Icc (-1) 1) := by
    ext y
    simp [intervalSet, Homeomorph.funUnique]
  rw [h, ← Homeomorph.preimage_interior, interior_Icc]
  simp [Homeomorph.funUnique]

/-- Claim C3 fails as stated: on the interval `[-1, 1]`, with an oracle whose two
end points always lie in the interval, one `hit_and_run` step from the interior
point `0` with `lambda = 1/2` lands on the end `1`, which is not interior. -/
theorem hit_and_run_chain_leaves_interior :
    Convex ℚ intervalSet ∧
    (fun _ => 0) ∈ interior intervalSet ∧
    (∀ p ∈ interior intervalSet, ∀ l : Point ℚ 1,
      p + (stickyInterval.line_intersect p l).1 • l ∈ intervalSet ∧
      p + (stickyInterval.line_intersect p l).2 • l ∈ intervalSet) ∧
    (0 : ℚ) < 1 / 2 ∧ (1 / 2 : ℚ) < 1 ∧
    hit_and_run_chain cmathQ stickyInterval [{ Xs := fun _ => 1, U := 1 / 2, coord := 0 }]
      (fun _ => 0) ∉ interior intervalSet := by
  refine ⟨convex_intervalSet, ?_, ?_, by norm_num, by norm_num, ?_⟩
  · rw [mem_interior_intervalSet]; norm_num
  · intro p hp l
    rw [mem_interior_intervalSet] at hp
    by_cases hl : l 0 = 0
    · simp [stickyInterval, intervalSet, hl, hp.1.le, hp.2.le]
    · simp [stickyInterval, intervalSet, hl, div_mul_cancel₀]
  · rw [mem_interior_intervalSet]
    simp [hit_and_run_chain, hit_and_run, get_direction, cmathQ, stickyInterval]

/-- Claim C3 at a concrete input: on the interval `[-1, 1]` with its exact
oracle, the chain from `0` with directions `1`, `-1` and `lambda = 1/4`, `1/2`
stays interior. -/
theorem hit_and_run_chain_interior_witness :
    hit_and_run_chain cmathQ interval
      (List.take 2 [{ Xs := fun _ => 1, U := 1 / 4, coord := 0 },
        { Xs := fun _ => -1, U := 1 / 2, coord := 0 }])
      (fun _ => 0) ∈ interior intervalSet :=
  hit_and_run_chain_interior intervalSet convex_intervalSet cmathQ interval
    (by
      intro p hp l
      have hp1 := hp
      rw [mem_interior_intervalSet] at hp
      rcases lt_trichotomy (l 0) 0 with hl | hl | hl
      · have h1 : ¬ 0 < l 0 := not_lt.mpr hl.le
        simp only [interval, intervalSet, h1, hl, if_true, if_false, Set.mem_setOf_eq,
          Pi.add_apply, Pi.smul_apply, smul_eq_mul, div_mul_cancel₀ _ hl.ne]
        refine ⟨by constructor <;> linarith, by constructor <;> linarith, ?_⟩
        intro h
        rw [div_left_inj' hl.ne] at h
        linarith
      · have hl1 : ¬ 0 < l 0 := by rw [hl]; exact lt_irrefl 0
        have hl2 : ¬ l 0 < 0 := by rw [hl]; exact lt_irrefl 0
        simp only [interval, hl1, hl2, if_false, zero_smul, add_zero]
        exact ⟨interior_subset hp1, interior_subset hp1, fun _ => hp1⟩
      · simp only [interval, intervalSet, hl, if_true, Set.mem_setOf_eq,
          Pi.add_apply, Pi.smul_apply, smul_eq_mul, div_mul_cancel₀ _ hl.ne']
        refine ⟨by constructor <;> linarith, by constructor <;> linarith, ?_⟩
        intro h
        rw [div_left_inj' hl.ne'] at h
        linarith)
    _ (by
      intro d hd
      simp only [List.mem_cons, List.mem_singleton, List.not_mem_nil, or_false] at hd
      rcases hd with rfl | rfl <;> norm_num)
    (fun _ => 0) (by rw [mem_interior_intervalSet]; norm_num) 2

/-! ## Drivers -/

section DriverLemmas

theorem iterate_block {σ α : Type} (step : σ → σ) (proj : σ → α) (L : Nat)
    (w : σ) (pts : List α) (r : Nat) :
    (fun s : σ × List α => (step^[L] s.1, s.2 ++ [proj (step^[L] s.1)]))^[r] (w, pts)
      = (step^[r * L] w,
         pts ++ (List.range r).map (fun i => proj (step^[(i + 1) * L] w))) := by
  induction r with
  | zero => simp
  | succ r ih =>
    rw [Function.iterate_succ_apply', ih]
    simp only [List.range_succ, List.map_append, List.map_cons, List.map_nil,
      List.append_assoc]
    have h : step^[L] (step^[r * L] w) = step^[(r + 1) * L] w := by
      rw [← Function.iterate_add_apply]
      congr 1
      ring
    rw [h]

end DriverLemmas

section DriverTheorems

variable {K : Type} [LinearOrderedField K] {n : Nat}

/-- Of the variables on return: the polytope driver and the spectrahedron driver
append `rnum` points after the existing contents of `randPoints`; the `i`-th of them
(counted from `0`) is the point of the chain after `i + 1` blocks of `walk_len`
walk steps. In the polytope driver the chain is the one that has already made
the step preceding the loops. -/
theorem rand_point_generator_points (m : CMath K) (P : ConvexBody K n)
    (S : Spectrahedron K n) (var : Parameters K) (draws : Nat → Draw K n)
    (p : Point K n) (rnum walk_len : Nat) (randPoints : List (Point K n)) :
    (rand_point_generator m P var draws p rnum walk_len randPoints).2
      = randPoints ++ (List.range rnum).map (fun i =>
          ((walk_step m P var draws)^[(i + 1) * walk_len]
            (first_step m P var draws (init_state P p))).p) ∧
    (rand_point_generator m P var draws p rnum walk_len randPoints).2.length
      = randPoints.length + rnum ∧
    (rand_point_generator_spectrahedron m S draws p rnum walk_len randPoints).2
      = randPoints ++ (List.range rnum).map (fun i =>
          ((spectrahedron_step m S draws)^[(i + 1) * walk_len] { p := p, t := 0 }).p) ∧
    (rand_point_generator_spectrahedron m S draws p rnum walk_len randPoints).2.length
      = randPoints.length + rnum := by
  have h1 : rand_point_generator m P var draws p rnum walk_len randPoints
      = ((walk_step m P var draws)^[rnum * walk_len]
            (first_step m P var draws (init_state P p)),
         randPoints ++ (List.range rnum).map (fun i =>
          ((walk_step m P var draws)^[(i + 1) * walk_len]
            (first_step m P var draws (init_state P p))).p)) :=
    iterate_block (walk_step m P var draws) (fun w => w.p) walk_len _ randPoints rnum
  have h2 : rand_point_generator_spectrahedron m S draws p rnum walk_len randPoints
      = ((spectrahedron_step m S draws)^[rnum * walk_len] { p := p, t := 0 },
         randPoints ++ (List.range rnum).map (fun i =>
          ((spectrahedron_step m S draws)^[(i + 1) * walk_len] { p := p, t := 0 }).p)) :=
    iterate_block (spectrahedron_step m S draws) (fun w => w.p) walk_len _ randPoints rnum
  rw [h1, h2]
  simp

end DriverTheorems

section Boltzmann

variable {K : Type} [LinearOrderedField K] {n : Nat}

theorem boltzmann_chain_t (m : CMath K) (texp : K → K → K → K → K) (P : ConvexBody K n)
    (c : Point K n) (temperature : K) (covariance_matrix : Matrix (Fin n) (Fin n) K)
    (draws : Nat → Draw K n) (L : Nat) :
    ∀ s : ChainState K n,
      ((boltzmann_step m texp P c temperature covariance_matrix draws)^[L] s).t
        = s.t + L := by
  induction L with
  | zero => intro s; rfl
  | succ L ih =>
    intro s
    rw [Function.iterate_succ_apply, ih]
    simp only [boltzmann_step]
    omega

theorem boltzmann_blocks (m : CMath K) (texp : K → K → K → K → K) (P : ConvexBody K n)
    (c : Point K n) (temperature : K) (covariance_matrix : Matrix (Fin n) (Fin n) K)
    (draws : Nat → Draw K n) (walk_length : Nat) (temp : Point K n)
    (s : ChainState K n) (hs : s.t = 0) (points : List (Point K n)) (r : Nat) :
    ((boltzmann_block m texp P c temperature covariance_matrix draws walk_length
        temp)^[r] (s, points)).1.t = r * walk_length ∧
    ((boltzmann_block m texp P c temperature covariance_matrix draws walk_length
        temp)^[r] (s, points)).2
      = points ++ (List.range r).map (fun k =>
          (rand_point_generator_Boltzmann m texp P c temperature covariance_matrix draws
            walk_length { p := temp, t := k * walk_length }).p) := by
  induction r with
  | zero => simp [hs]
  | succ r ih =>
    rw [Function.iterate_succ_apply']
    obtain ⟨ht, hp⟩ := ih
    constructor
    · simp only [boltzmann_block]
      rw [boltzmann_chain_t, ht]
      ring
    · simp only [boltzmann_block]
      rw [hp, ht]
      simp only [List.range_succ, List.map_append, List.map_cons, List.map_nil,
        List.append_assoc, rand_point_generator_Boltzmann]

/-- Of the variables on return: the multi-point `rand_point_generator_Boltzmann`
appends `pointsNum` points; the `k`-th of them (counted from `0`) is the result of
`walk_length` `hit_and_run_Boltzmann` steps applied to the input point `p`, with
the draws that follow those of the earlier chains; with `walk_length = 0` every
appended point is `p`. -/
theorem rand_point_generator_Boltzmann_restarts (m : CMath K)
    (texp : K → K → K → K → K) (P : ConvexBody K n) (c : Point K n) (temperature : K)
    (covariance_matrix : Matrix (Fin n) (Fin n) K) (draws : Nat → Draw K n)
    (p : Point K n) (pointsNum walk_length : Nat) (points : List (Point K n)) :
    (rand_point_generator_Boltzmann_points m texp P c temperature covariance_matrix draws
        p pointsNum walk_length points).2
      = points ++ (List.range pointsNum).map (fun k =>
          (rand_point_generator_Boltzmann m texp P c temperature covariance_matrix draws
            walk_length { p := p, t := k * walk_length }).p) ∧
    (rand_point_generator_Boltzmann_points m texp P c temperature covariance_matrix draws
        p pointsNum walk_length points).2.length = points.length + pointsNum ∧
    (rand_point_generator_Boltzmann_points m texp P c temperature covariance_matrix draws
        p pointsNum 0 points).2 = points ++ List.replicate pointsNum p := by
  have h := fun L => (boltzmann_blocks m texp P c temperature covariance_matrix draws L p
    { p := p, t := 0 } rfl points pointsNum).2
  unfold rand_point_generator_Boltzmann_points
  dsimp only
  refine ⟨h walk_length, ?_, ?_⟩
  · rw [h walk_length]
    simp
  · rw [h 0]
    congr 1
    simp only [rand_point_generator_Boltzmann, Function.iterate_zero, id_eq]
    rw [List.map_const', List.length_range]

end Boltzmann

/-! ## Billiard walk inside a convex body -/

theorem mem_of_le_end {K : Type} [LinearOrderedField K] {n : Nat} (S : Set (Point K n)) (hS : Convex K S)
    (p v : Point K n) (d T : K) (hp : p ∈ S) (hd : p + d • v ∈ S)
    (h0 : 0 ≤ T) (h1 : T ≤ d) : T • v + p ∈ S := by
  rcases eq_or_lt_of_le (h0.trans h1) with hd0 | hd0
  · have hT : T = 0 := le_antisymm (hd0 ▸ h1) h0
    rw [hT, zero_smul, zero_add]
    exact hp
  · have key := hS.add_smul_mem hp hd (t := T / d)
      ⟨div_nonneg h0 hd0.le, (div_le_one hd0).mpr h1⟩
    convert key using 1
    rw [smul_smul, div_mul_cancel₀ _ hd0.ne', add_comm]

section BilliardInside

variable {K : Type} [LinearOrderedField K] [TopologicalSpace K] [OrderTopology K] {n : Nat}

theorem billiard_loop_inside (S : Set (Point K n)) (hS : Convex K S)
    (P : ConvexBody K n)
    (h2 : ∀ q ∈ interior S, ∀ (v : Point K n) (Ar Av : List K) (lp : K),
      0 ≤ (P.line_positive_intersect_prev q v Ar Av lp).1.1 ∧
      q + (P.line_positive_intersect_prev q v Ar Av lp).1.1 • v ∈ S)
    (k : Nat) :
    ∀ s : BilliardState K n, s.stopped = false → s.p ∈ interior S → 0 ≤ s.T →
      (billiard_loop P k s).p ∈ S ∧
      ((billiard_loop P k s).stopped = false → (billiard_loop P k s).p ∈ interior S) := by
  induction k with
  | zero =>
    intro s _ hp _
    exact ⟨interior_subset hp, fun _ => hp⟩
  | succ k ih =>
    intro s hs hp hT
    obtain ⟨hd0, hdS⟩ := h2 s.p hp s.v s.Ar s.Av s.lambda_prev
    simp only [billiard_loop]
    split_ifs with h
    · refine ⟨mem_of_le_end S hS s.p s.v _ s.T (interior_subset hp) hdS hT h, ?_⟩
      intro hcontra
      simp at hcontra
    · have h995 : (0.995 : K) = 199 / 200 := by norm_num
      apply ih
      · exact hs
      · have := mem_interior_of_lt_end S hS s.p s.v
          (P.line_positive_intersect_prev s.p s.v s.Ar s.Av s.lambda_prev).1.1 0.995 hp hdS
          (by rw [h995]; norm_num) (by rw [h995]; norm_num)
        rw [add_comm] at this
        exact this
      · have hlt := not_le.mp h
        show 0 ≤ s.T - 0.995 * _
        rw [h995]
        linarith

theorem billiard_first_inside (S : Set (Point K n)) (hS : Convex K S)
    (P : ConvexBody K n)
    (h1 : ∀ q ∈ interior S, ∀ (v : Point K n) (Ar Av : List K),
      0 ≤ (P.line_positive_intersect q v Ar Av).1.1 ∧
      q + (P.line_positive_intersect q v Ar Av).1.1 • v ∈ S)
    (s : BilliardState K n) (hp : s.p ∈ interior S) (hT : 0 ≤ s.T) :
    (billiard_first P s).p ∈ S ∧
    ((billiard_first P s).stopped = false →
      (billiard_first P s).p ∈ interior S ∧ 0 ≤ (billiard_first P s).T) := by
  obtain ⟨hd0, hdS⟩ := h1 s.p hp s.v s.Ar s.Av
  unfold billiard_first
  dsimp only
  split_ifs with h
  · refine ⟨mem_of_le_end S hS s.p s.v _ s.T (interior_subset hp) hdS hT h, ?_⟩
    intro hcontra
    simp at hcontra
  · have h995 : (0.995 : K) = 199 / 200 := by norm_num
    have hin := mem_interior_of_lt_end S hS s.p s.v
      (P.line_positive_intersect s.p s.v s.Ar s.Av).1.1 0.995 hp hdS
      (by rw [h995]; norm_num) (by rw [h995]; norm_num)
    rw [add_comm] at hin
    refine ⟨interior_subset hin, fun _ => ⟨hin, ?_⟩⟩
    have hlt := not_le.mp h
    show 0 ≤ s.T - 0.995 * _
    rw [h995]
    linarith

/-- Claim C11: for a convex set `S` and forward-distance oracles that, at every
interior point `q` and direction `v`, answer a `d >= 0` with `q + d * v` in `S`
(as the exact distance does), whatever `compute_reflection` does, if `p` is
interior, `che_rad >= 0` and `U >= 0`, then every value `billiard_walk` gives to
`p` lies in `S`: the one of the block `if (first)`, the one after each number `k`
of loop iterations, and the returned one; and each of them reached by an advance
`0.995 * d` (the walk has not stopped) is interior to `S`. -/
theorem billiard_walk_inside (S : Set (Point K n)) (hS : Convex K S)
    (m : CMath K) (P : ConvexBody K n) (p : Point K n) (che_rad : K)
    (Ar Av : List K) (lambda_prev : K) (Xs : Fin n → K) (U : K) (first : Bool)
    (h1 : ∀ q ∈ interior S, ∀ (v : Point K n) (Ar Av : List K),
      0 ≤ (P.line_positive_intersect q v Ar Av).1.1 ∧
      q + (P.line_positive_intersect q v Ar Av).1.1 • v ∈ S)
    (h2 : ∀ q ∈ interior S, ∀ (v : Point K n) (Ar Av : List K) (lp : K),
      0 ≤ (P.line_positive_intersect_prev q v Ar Av lp).1.1 ∧
      q + (P.line_positive_intersect_prev q v Ar Av lp).1.1 • v ∈ S)
    (hp : p ∈ interior S) (hc : 0 ≤ che_rad) (hU : 0 ≤ U) :
    (billiard_entry m P p che_rad Ar Av lambda_prev Xs U first).p ∈ S ∧
    ((billiard_entry m P p che_rad Ar Av lambda_prev Xs U first).stopped = false →
      ∀ k : Nat,
        (billiard_loop P k
          (billiard_entry m P p che_rad Ar Av lambda_prev Xs U first)).p ∈ S ∧
        ((billiard_loop P k
            (billiard_entry m P p che_rad Ar Av lambda_prev Xs U first)).stopped = false →
          (billiard_loop P k
            (billiard_entry m P p che_rad Ar Av lambda_prev Xs U first)).p
            ∈ interior S)) ∧
    (billiard_walk m P p che_rad Ar Av lambda_prev Xs U first).p ∈ S := by
  have hT0 : 0 ≤ (billiard_init m p che_rad Ar Av lambda_prev Xs U).T :=
    mul_nonneg hU hc
  have hp0 : (billiard_init m p che_rad Ar Av lambda_prev Xs U).p ∈ interior S := hp
  have he : (billiard_entry m P p che_rad Ar Av lambda_prev Xs U first).p ∈ S ∧
      ((billiard_entry m P p che_rad Ar Av lambda_prev Xs U first).stopped = false →
        (billiard_entry m P p che_rad Ar Av lambda_prev Xs U first).p ∈ interior S ∧
        0 ≤ (billiard_entry m P p che_rad Ar Av lambda_prev Xs U first).T) := by
    unfold billiard_entry
    dsimp only
    split_ifs
    · exact billiard_first_inside S hS P h1 _ hp0 hT0
    · exact ⟨interior_subset hp0, fun _ => ⟨hp0, hT0⟩⟩
  have hl : (billiard_entry m P p che_rad Ar Av lambda_prev Xs U first).stopped = false →
      ∀ k : Nat,
        (billiard_loop P k
          (billiard_entry m P p che_rad Ar Av lambda_prev Xs U first)).p ∈ S ∧
        ((billiard_loop P k
            (billiard_entry m P p che_rad Ar Av lambda_prev Xs U first)).stopped = false →
          (billiard_loop P k
            (billiard_entry m P p che_rad Ar Av lambda_prev Xs U first)).p
            ∈ interior S) :=
    fun hs k => billiard_loop_inside S hS P h2 k _ hs (he.2 hs).1 (he.2 hs).2
  refine ⟨he.1, hl, ?_⟩
  unfold billiard_walk
  dsimp only
  split_ifs with h
  · exact he.1
  · exact (hl (by simpa using h) (3 * n)).1

end BilliardInside

theorem interval_forward (q : Point ℚ 1) (hq : q ∈ interior intervalSet)
    (v : Point ℚ 1) (Ar Av : List ℚ) :
    (0 ≤ (interval.line_positive_intersect q v Ar Av).1.1 ∧
      q + (interval.line_positive_intersect q v Ar Av).1.1 • v ∈ intervalSet) ∧
    ∀ lp : ℚ, 0 ≤ (interval.line_positive_intersect_prev q v Ar Av lp).1.1 ∧
      q + (interval.line_positive_intersect_prev q v Ar Av lp).1.1 • v ∈ intervalSet := by
  rw [mem_interior_intervalSet] at hq
  rcases lt_trichotomy (v 0) 0 with hv | hv | hv
  · have h1 : ¬ 0 < v 0 := not_lt.mpr hv.le
    simp only [interval, intervalSet, h1, hv, if_true, if_false, Set.mem_setOf_eq,
      Pi.add_apply, Pi.smul_apply, smul_eq_mul, div_mul_cancel₀ _ hv.ne]
    have hd : 0 ≤ (-1 - q 0) / v 0 := div_nonneg_of_nonpos (by linarith) hv.le
    exact ⟨⟨hd, by constructor <;> linarith⟩, fun _ => ⟨hd, by constructor <;> linarith⟩⟩
  · simp [interval, intervalSet, hv, hq.1.le, hq.2.le]
  · simp only [interval, intervalSet, hv, if_true, Set.mem_setOf_eq,
      Pi.add_apply, Pi.smul_apply, smul_eq_mul, div_mul_cancel₀ _ hv.ne']
    have hd : 0 ≤ (1 - q 0) / v 0 := div_nonneg (by linarith) hv.le
    exact ⟨⟨hd, by constructor <;> linarith⟩, fun _ => ⟨hd, by constructor <;> linarith⟩⟩

/-- Claim C11 at a concrete input: on the interval `[-1, 1]` with its exact
oracles, from `p = 0` with direction `1` and `T = 0.5 * 3`, the returned point
of a bootstrap call lies in the interval. -/
theorem billiard_walk_inside_witness :
    (billiard_walk cmathQ interval (fun _ => 0) 3 [] [] 0 (fun _ => 1) (1 / 2) true).p
      ∈ intervalSet :=
  (billiard_walk_inside intervalSet convex_intervalSet cmathQ interval (fun _ => 0) 3
    [] [] 0 (fun _ => 1) (1 / 2) true
    (fun q hq v Ar Av => (interval_forward q hq v Ar Av).1)
    (fun q hq v Ar Av lp => (interval_forward q hq v Ar Av).2 lp)
    (by rw [mem_interior_intervalSet]; norm_num) (by norm_num) (by norm_num)).2.2

/-! ## Direction sampler -/

section Direction

variable {K : Type} [LinearOrderedField K]

theorem sum_sq_pos {dim : Nat} (Xs : Fin dim → K) (hX : Xs ≠ 0) :
    0 < ∑ i, Xs i * Xs i := by
  obtain ⟨j, hj⟩ := Function.ne_iff.mp hX
  refine Finset.sum_pos' (fun i _ => mul_self_nonneg (Xs i)) ⟨j, Finset.mem_univ j, ?_⟩
  exact mul_self_pos.mpr hj

theorem sqrt_mul_self (m : CMath K) (hs : SqrtExact m) (y : K) (hy : 0 ≤ y) :
    m.sqrt (y * y) = y := by
  obtain ⟨h0, h1⟩ := hs (y * y) (mul_self_nonneg y)
  exact (mul_self_inj h0 hy).mp h1

theorem sum_sq_smul {dim : Nat} (c : K) (p : Point K dim) :
    ∑ i, (c • p) i * (c • p) i = c * c * ∑ i, p i * p i := by
  rw [Finset.mul_sum]
  refine Finset.sum_congr rfl (fun i _ => ?_)
  simp only [Pi.smul_apply, smul_eq_mul]
  ring

theorem get_direction_apply (m : CMath K) (dim : Nat) (Xs : Fin dim → K) (i : Fin dim) :
    get_direction m dim Xs i = Xs i / euclidean_norm m Xs := by
  simp only [get_direction, euclidean_norm, mul_one_div]

theorem get_direction_sum_sq (m : CMath K) (hs : SqrtExact m) (dim : Nat)
    (Xs : Fin dim → K) (hX : Xs ≠ 0) :
    ∑ i, get_direction m dim Xs i * get_direction m dim Xs i = 1 := by
  have hpos := sum_sq_pos Xs hX
  obtain ⟨h0, h1⟩ := hs _ hpos.le
  have hne : m.sqrt (∑ i, Xs i * Xs i) ≠ 0 := by
    intro h
    rw [h, mul_zero] at h1
    exact hpos.ne h1
  have hterm : ∀ i, get_direction m dim Xs i * get_direction m dim Xs i
      = (Xs i * Xs i) * (1 / (∑ j, Xs j * Xs j)) := by
    intro i
    simp only [get_direction]
    generalize m.sqrt (∑ j, Xs j * Xs j) = r at h1 hne
    rw [← h1]
    field_simp
  simp only [hterm]
  rw [← Finset.sum_mul]
  exact mul_one_div_cancel hpos.ne'

theorem euclidean_norm_get_direction (m : CMath K) (hs : SqrtExact m) (dim : Nat)
    (Xs : Fin dim → K) (hX : Xs ≠ 0) :
    euclidean_norm m (get_direction m dim Xs) = 1 := by
  unfold euclidean_norm
  rw [get_direction_sum_sq m hs dim Xs hX]
  have := sqrt_mul_self m hs 1 zero_le_one
  rwa [mul_one] at this

theorem euclidean_norm_smul_get_direction (m : CMath K) (hs : SqrtExact m) (dim : Nat)
    (Xs : Fin dim → K) (hX : Xs ≠ 0) (c : K) :
    euclidean_norm m (c • get_direction m dim Xs) = |c| := by
  unfold euclidean_norm
  rw [sum_sq_smul, get_direction_sum_sq m hs dim Xs hX, mul_one, ← abs_mul_abs_self c]
  exact sqrt_mul_self m hs |c| (abs_nonneg c)

/-- Claim C13: for draws `Xs` that are not all zero (so `dim >= 1`) and an exact
`std::sqrt`, `get_direction(dim)` returns `Xs` divided by its Euclidean norm, and
the result has Euclidean norm `1`. -/
theorem get_direction_unit (m : CMath K) (hs : SqrtExact m) (dim : Nat)
    (Xs : Fin dim → K) (hX : Xs ≠ 0) :
    1 ≤ dim ∧
    (∀ i, get_direction m dim Xs i = Xs i / euclidean_norm m Xs) ∧
    ∑ i, get_direction m dim Xs i * get_direction m dim Xs i = 1 ∧
    euclidean_norm m (get_direction m dim Xs) = 1 := by
  refine ⟨?_, get_direction_apply m dim Xs, get_direction_sum_sq m hs dim Xs hX,
    euclidean_norm_get_direction m hs dim Xs hX⟩
  obtain ⟨j, _⟩ := Function.ne_iff.mp hX
  exact Nat.succ_le_of_lt (Nat.lt_of_le_of_lt (Nat.zero_le _) j.isLt)

/-- Claim C12: for `dim >= 1`, `radius >= 0`, `U` in `[0, 1]`, draws `Xs` that are
not all zero and exact `std::sqrt` and `std::pow`, the point returned by
`get_point_in_Dsphere(dim, radius)` has Euclidean norm `radius * U^(1/dim)`, which
is at most `radius`. -/
theorem get_point_in_Dsphere_norm (m : CMath K) (hs : SqrtExact m) (hp : RootExact m)
    (dim : Nat) (radius : K) (Xs : Fin dim → K) (U : K) (hdim : 1 ≤ dim)
    (hr : 0 ≤ radius) (hU0 : 0 ≤ U) (hU1 : U ≤ 1) (hX : Xs ≠ 0) :
    euclidean_norm m (get_point_in_Dsphere m dim radius Xs U)
      = radius * m.pow U (1 / (dim : K)) ∧
    euclidean_norm m (get_point_in_Dsphere m dim radius Xs U) ≤ radius := by
  obtain ⟨hw0, hw⟩ := hp U dim hU0 hdim
  have hnorm : euclidean_norm m (get_point_in_Dsphere m dim radius Xs U)
      = radius * m.pow U (1 / (dim : K)) := by
    unfold get_point_in_Dsphere
    dsimp only
    rw [euclidean_norm_smul_get_direction m hs dim Xs hX,
      abs_of_nonneg (mul_nonneg hr hw0)]
  have hw1 : m.pow U (1 / (dim : K)) ≤ 1 := by
    by_contra hlt
    have h1 : 1 < m.pow U (1 / (dim : K)) ^ dim :=
      one_lt_pow₀ (not_le.mp hlt) (by omega)
    rw [hw] at h1
    exact absurd hU1 (not_le.mpr h1)
  refine ⟨hnorm, ?_⟩
  rw [hnorm]
  exact mul_le_of_le_one_right hr hw1

theorem get_point_on_Dsphere_of_ne (m : CMath K) (dim : Nat) (radius : K)
    (Xs : Fin dim → K) (h : radius ≠ 0) :
    get_point_on_Dsphere m dim radius Xs = radius • get_direction m dim Xs := by
  simp only [get_point_on_Dsphere, h, if_false]

theorem get_point_on_Dsphere_zero (m : CMath K) (dim : Nat) (Xs : Fin dim → K) :
    get_point_on_Dsphere m dim 0 Xs = get_direction m dim Xs := by
  simp only [get_point_on_Dsphere, if_true]

/-- Claim C14, as the code has it: for a radius `r` other than `0`,
`get_point_on_Dsphere(dim, r)` returns `r` times the drawn direction, of Euclidean
norm `|r|`; for `r = 0` it returns the direction itself, of norm `1` (the norms
for draws not all zero and an exact `std::sqrt`). -/
theorem get_point_on_Dsphere_eq (m : CMath K) (dim : Nat) (radius : K)
    (Xs : Fin dim → K) :
    (radius ≠ 0 →
      get_point_on_Dsphere m dim radius Xs = radius • get_direction m dim Xs) ∧
    get_point_on_Dsphere m dim 0 Xs = get_direction m dim Xs ∧
    (SqrtExact m → Xs ≠ 0 →
      (radius ≠ 0 → euclidean_norm m (get_point_on_Dsphere m dim radius Xs) = |radius|) ∧
      euclidean_norm m (get_point_on_Dsphere m dim 0 Xs) = 1) := by
  refine ⟨get_point_on_Dsphere_of_ne m dim radius Xs,
    get_point_on_Dsphere_zero m dim Xs, fun hs hX => ⟨fun h => ?_, ?_⟩⟩
  · rw [get_point_on_Dsphere_of_ne m dim radius Xs h]
    exact euclidean_norm_smul_get_direction m hs dim Xs hX radius
  · rw [get_point_on_Dsphere_zero]
    exact euclidean_norm_get_direction m hs dim Xs hX

end Direction

/-- Claim C14 fails as stated: in dimension one with the draw `1`, the point
returned for the radius `0` is the direction `1`, not `0` times it, and not the
zero vector. -/
theorem get_point_on_Dsphere_zero_radius :
    get_point_on_Dsphere cmathQ 1 0 (fun _ => 1)
      ≠ (0 : ℚ) • get_direction cmathQ 1 (fun _ => 1) ∧
    get_point_on_Dsphere cmathQ 1 0 (fun _ => 1) ≠ 0 := by
  have h : get_point_on_Dsphere cmathQ 1 0 (fun _ => 1) 0 = 1 := by
    simp [get_point_on_Dsphere, get_direction, cmathQ]
  constructor
  · intro h0
    rw [h0] at h
    simp at h
  · intro h0
    rw [h0] at h
    simp at h

theorem sqrtExact_real :
    SqrtExact ({ sqrt := Real.sqrt, pow := fun x y => x ^ y } : CMath ℝ) :=
  fun x hx => ⟨Real.sqrt_nonneg x, Real.mul_self_sqrt hx⟩

theorem rootExact_real :
    RootExact ({ sqrt := Real.sqrt, pow := fun x y => x ^ y } : CMath ℝ) := by
  intro x d hx hd
  refine ⟨Real.rpow_nonneg hx _, ?_⟩
  show (x ^ (1 / (d : ℝ))) ^ d = x
  rw [one_div]
  exact Real.rpow_inv_natCast_pow hx (by omega)

theorem draws_three_four_ne : (![3, 4] : Fin 2 → ℝ) ≠ 0 := by
  intro h
  have := congrFun h 0
  simp at this

/-- Claim C13 at a concrete input: over the reals, with the draws `(3, 4)`. -/
theorem get_direction_unit_witness :
    euclidean_norm ({ sqrt := Real.sqrt, pow := fun x y => x ^ y } : CMath ℝ)
      (get_direction { sqrt := Real.sqrt, pow := fun x y => x ^ y } 2 ![3, 4]) = 1 :=
  (get_direction_unit { sqrt := Real.sqrt, pow := fun x y => x ^ y } sqrtExact_real 2
    ![3, 4] draws_three_four_ne).2.2.2

/-- Claim C12 at a concrete input: over the reals, in dimension `2` with the
draws `(3, 4)`, `radius = 2` and `U = 1/4`. -/
theorem get_point_in_Dsphere_norm_witness :
    euclidean_norm ({ sqrt := Real.sqrt, pow := fun x y => x ^ y } : CMath ℝ)
      (get_point_in_Dsphere { sqrt := Real.sqrt, pow := fun x y => x ^ y } 2 2 ![3, 4]
        (1 / 4)) ≤ 2 :=
  (get_point_in_Dsphere_norm { sqrt := Real.sqrt, pow := fun x y => x ^ y }
    sqrtExact_real rootExact_real 2 2 ![3, 4] (1 / 4) (by norm_num) (by norm_num)
    (by norm_num) (by norm_num) draws_three_four_ne).2

/-- Claim C14 at a concrete input: over the reals, with the draws `(3, 4)`, for
the radius `-2` the norm is `2` and for the radius `0` it is `1`. -/
theorem get_point_on_Dsphere_eq_witness :
    euclidean_norm ({ sqrt := Real.sqrt, pow := fun x y => x ^ y } : CMath ℝ)
      (get_point_on_Dsphere { sqrt := Real.sqrt, pow := fun x y => x ^ y } 2 (-2)
        ![3, 4]) = |(-2 : ℝ)| ∧
    euclidean_norm ({ sqrt := Real.sqrt, pow := fun x y => x ^ y } : CMath ℝ)
      (get_point_on_Dsphere { sqrt := Real.sqrt, pow := fun x y => x ^ y } 2 0
        ![3, 4]) = 1 :=
  ⟨((get_point_on_Dsphere_eq { sqrt := Real.sqrt, pow := fun x y => x ^ y } 2 (-2)
      ![3, 4]).2.2 sqrtExact_real draws_three_four_ne).1 (by norm_num),
   ((get_point_on_Dsphere_eq { sqrt := Real.sqrt, pow := fun x y => x ^ y } 2 (-2)
      ![3, 4]).2.2 sqrtExact_real draws_three_four_ne).2⟩

/-! ## Coordinate-direction hit-and-run and the steps of the polytope driver -/

theorem set_coord_same {K : Type} {n : Nat} (p : Point K n) (k : Fin n) (x : K) :
    set_coord p k.val x k = x := by
  simp [set_coord]

theorem set_coord_other {K : Type} {n : Nat} (p : Point K n) (c : Nat) (x : K)
    (i : Fin n) (h : i.val ≠ c) :
    set_coord p c x i = p i := by
  simp [set_coord, h]

section Coordinate

variable {K : Type} [LinearOrderedField K] {n : Nat}

theorem coord_fin (p : Point K n) (k : Fin n) : coord p k.val = p k := by
  simp [coord]

theorem between_of_fraction (a lo hi kapa : K) (h0 : 0 ≤ kapa) (h1 : kapa ≤ 1) :
    min (a + lo) (a + hi) ≤ a + lo + kapa * (hi - lo) ∧
    a + lo + kapa * (hi - lo) ≤ max (a + lo) (a + hi) := by
  rcases le_total lo hi with h | h
  · rw [min_eq_left (by linarith), max_eq_right (by linarith)]
    constructor <;> nlinarith
  · rw [min_eq_right (by linarith), max_eq_left (by linarith)]
    constructor <;> nlinarith

/-- Claim C15: one `hit_and_run_coord_update` step, in either overload, sets the
coordinate `k = rand_coord` of `p` to `p[k] + lo + kapa * (hi - lo)`, where
`(lo, hi)` is the pair answered by the oracle, leaves every other coordinate as
it is, and sets `p_prev` to the old `p`; for `kapa` in `[0, 1]` the new coordinate
lies between `p[k] + lo` and `p[k] + hi`. -/
theorem hit_and_run_coord_update_frame (P : ConvexBody K n) (p p_prev : Point K n)
    (k : Fin n) (rand_coord_prev : Nat) (kapa : K) (lamdas : List K) :
    (hit_and_run_coord_update P p p_prev k.val rand_coord_prev kapa lamdas).1 k
      = p k + (P.line_intersect_coord_prev p p_prev k.val rand_coord_prev lamdas).1.1
        + kapa * ((P.line_intersect_coord_prev p p_prev k.val rand_coord_prev lamdas).1.2
          - (P.line_intersect_coord_prev p p_prev k.val rand_coord_prev lamdas).1.1) ∧
    (∀ i : Fin n, i ≠ k →
      (hit_and_run_coord_update P p p_prev k.val rand_coord_prev kapa lamdas).1 i = p i) ∧
    (hit_and_run_coord_update P p p_prev k.val rand_coord_prev kapa lamdas).2.1 = p ∧
    (0 ≤ kapa → kapa ≤ 1 →
      min (p k + (P.line_intersect_coord_prev p p_prev k.val rand_coord_prev lamdas).1.1)
          (p k + (P.line_intersect_coord_prev p p_prev k.val rand_coord_prev lamdas).1.2)
        ≤ (hit_and_run_coord_update P p p_prev k.val rand_coord_prev kapa lamdas).1 k ∧
      (hit_and_run_coord_update P p p_prev k.val rand_coord_prev kapa lamdas).1 k
        ≤ max
          (p k + (P.line_intersect_coord_prev p p_prev k.val rand_coord_prev lamdas).1.1)
          (p k
            + (P.line_intersect_coord_prev p p_prev k.val rand_coord_prev lamdas).1.2)) ∧
    (hit_and_run_coord_update_bpair P p p_prev k.val rand_coord_prev kapa lamdas).1
      = (hit_and_run_coord_update P p p_prev k.val rand_coord_prev kapa lamdas).1 ∧
    (hit_and_run_coord_update_bpair P p p_prev k.val rand_coord_prev kapa lamdas).2.1 = p := by
  have hk : (hit_and_run_coord_update P p p_prev k.val rand_coord_prev kapa lamdas).1 k
      = p k + (P.line_intersect_coord_prev p p_prev k.val rand_coord_prev lamdas).1.1
        + kapa * ((P.line_intersect_coord_prev p p_prev k.val rand_coord_prev lamdas).1.2
          - (P.line_intersect_coord_prev p p_prev k.val rand_coord_prev lamdas).1.1) := by
    simp only [hit_and_run_coord_update, set_coord_same, coord_fin]
  refine ⟨hk, ?_, rfl, ?_, rfl, rfl⟩
  · intro i hi
    simp only [hit_and_run_coord_update]
    exact set_coord_other p k.val _ i (fun h => hi (Fin.ext h))
  · intro h0 h1
    rw [hk]
    exact between_of_fraction _ _ _ kapa h0 h1

end Coordinate

section Steps

variable {K : Type} [LinearOrderedField K] {n : Nat}

theorem walk_step_t (m : CMath K) (P : ConvexBody K n) (var : Parameters K)
    (draws : Nat → Draw K n) (s : WalkState K n) :
    (walk_step m P var draws s).t = s.t + 1 := by
  unfold walk_step
  dsimp only
  split_ifs <;> rfl

theorem first_step_t (m : CMath K) (P : ConvexBody K n) (var : Parameters K)
    (draws : Nat → Draw K n) (s : WalkState K n) :
    (first_step m P var draws s).t = s.t + 1 := by
  unfold first_step
  dsimp only
  split_ifs <;> rfl

theorem walk_steps_t (m : CMath K) (P : ConvexBody K n) (var : Parameters K)
    (draws : Nat → Draw K n) (k : Nat) :
    ∀ s : WalkState K n, ((walk_step m P var draws)^[k] s).t = s.t + k := by
  induction k with
  | zero => intro s; rfl
  | succ k ih =>
    intro s
    rw [Function.iterate_succ_apply, ih, walk_step_t]
    omega

theorem first_step_eq_walk_step (m : CMath K) (P : ConvexBody K n) (var : Parameters K)
    (draws : Nat → Draw K n) (s : WalkState K n)
    (h : var.ball_walk = true ∨ var.cdhr_walk = false) :
    first_step m P var draws s = walk_step m P var draws s := by
  unfold first_step walk_step
  dsimp only
  rcases h with h | h
  · simp only [h, if_true]
  · by_cases hb : var.ball_walk = true
    · simp only [hb, if_true]
    · simp only [hb, h, if_false, Bool.false_eq_true]

theorem rand_point_generator_state (m : CMath K) (P : ConvexBody K n)
    (var : Parameters K) (draws : Nat → Draw K n) (p : Point K n) (rnum walk_len : Nat)
    (randPoints : List (Point K n)) :
    rand_point_generator m P var draws p rnum walk_len randPoints
      = ((walk_step m P var draws)^[rnum * walk_len]
            (first_step m P var draws (init_state P p)),
         randPoints ++ (List.range rnum).map (fun i =>
          ((walk_step m P var draws)^[(i + 1) * walk_len]
            (first_step m P var draws (init_state P p))).p)) :=
  iterate_block (walk_step m P var draws) (fun w => w.p) walk_len _ randPoints rnum

/-- Of the variables on return: in every mode the polytope driver makes one
walk step before its loops and `walk_len` steps for each sample, `1 + rnum *
walk_len` in all; when ball walk or general hit-and-run is selected that first
step is an ordinary walk step, so the `i`-th sample (from `0`) is the chain point
after `(i + 1) * walk_len + 1` steps from the start point; with `rnum = 0` the
point `p` is the result of that one step. -/
theorem rand_point_generator_steps (m : CMath K) (P : ConvexBody K n)
    (var : Parameters K) (draws : Nat → Draw K n) (p : Point K n) (rnum walk_len : Nat)
    (randPoints : List (Point K n)) :
    (rand_point_generator m P var draws p rnum walk_len randPoints).1
      = (walk_step m P var draws)^[rnum * walk_len]
          (first_step m P var draws (init_state P p)) ∧
    (rand_point_generator m P var draws p rnum walk_len randPoints).1.t
      = 1 + rnum * walk_len ∧
    (rand_point_generator m P var draws p 0 walk_len randPoints).1.p
      = (first_step m P var draws (init_state P p)).p ∧
    ((var.ball_walk = true ∨ var.cdhr_walk = false) →
      (rand_point_generator m P var draws p rnum walk_len randPoints).1
        = (walk_step m P var draws)^[rnum * walk_len + 1] (init_state P p) ∧
      (rand_point_generator m P var draws p rnum walk_len randPoints).2
        = randPoints ++ (List.range rnum).map (fun i =>
            ((walk_step m P var draws)^[(i + 1) * walk_len + 1] (init_state P p)).p)) := by
  have hst := rand_point_generator_state m P var draws p rnum walk_len randPoints
  refine ⟨by rw [hst], ?_, ?_, ?_⟩
  · rw [hst]
    show ((walk_step m P var draws)^[rnum * walk_len]
      (first_step m P var draws (init_state P p))).t = _
    rw [walk_steps_t, first_step_t]
    simp only [init_state, zero_add]
  · rw [rand_point_generator_state]
    simp
  · intro h
    rw [hst]
    simp only [Function.iterate_succ_apply,
      first_step_eq_walk_step m P var draws (init_state P p) h, and_self]

end Steps

/-- Claim C16 fails as stated: on the interval `[-1, 1]` with general hit-and-run
selected and `rnum = 0`, the driver makes one step and moves `p` from `0` to
`-1/2`. -/
theorem rand_point_generator_moves_start :
    (rand_point_generator cmathQ interval hrVar unitDraws (fun _ => 0) 0 5 []).1.t
      ≠ 0 * 5 ∧
    (rand_point_generator cmathQ interval hrVar unitDraws (fun _ => 0) 0 5 []).1.p
      ≠ (fun _ => 0) := by
  have h : (rand_point_generator cmathQ interval hrVar unitDraws (fun _ => 0) 0 5 []).1.p 0
      = -1 / 2 := by
    simp [rand_point_generator, first_step, init_state, hrVar, unitDraws, hit_and_run,
      get_direction, cmathQ, interval]
    norm_num
  constructor
  · simp [rand_point_generator, first_step, init_state, hrVar]
  · intro h0
    rw [h0] at h
    norm_num at h

/-! ## Boltzmann hit-and-run -/

section BoltzmannStep

variable {K : Type} [LinearOrderedField K] {n : Nat}

theorem hit_and_run_Boltzmann_eq (m : CMath K) (texp : K → K → K → K → K)
    (P : ConvexBody K n) (c : Point K n) (T : K) (chol : Matrix (Fin n) (Fin n) K)
    (Xs : Fin n → K) (u : K) (p : Point K n) :
    hit_and_run_Boltzmann m texp P c T chol Xs u p
      = boltzmann_lambda m texp P c T chol Xs u p • get_direction_cholesky m n Xs chol
        + boltzmann_anchor m P c chol Xs p := by
  unfold hit_and_run_Boltzmann boltzmann_lambda boltzmann_anchor boltzmann_texp
    boltzmann_rate
  dsimp only
  split_ifs <;> rfl

/-- Claim C17: for a positive temperature, the end point that
`hit_and_run_Boltzmann` assigns to `p` before it adds `lambda * l` (`b2` when
`<c, b1> > <c, b2>`, `b1` otherwise) has a value of `<c, .>` at most that of the
other end point, and the rate passed to `texp` is non-negative. -/
theorem hit_and_run_Boltzmann_anchor (m : CMath K) (texp : K → K → K → K → K)
    (P : ConvexBody K n) (c : Point K n) (T : K) (chol : Matrix (Fin n) (Fin n) K)
    (Xs : Fin n → K) (u : K) (p : Point K n) (hT : 0 < T) :
    hit_and_run_Boltzmann m texp P c T chol Xs u p
      = boltzmann_lambda m texp P c T chol Xs u p • get_direction_cholesky m n Xs chol
        + boltzmann_anchor m P c chol Xs p ∧
    (dot c ((P.line_intersect p (get_direction_cholesky m n Xs chol)).1
              • get_direction_cholesky m n Xs chol + p)
        > dot c ((P.line_intersect p (get_direction_cholesky m n Xs chol)).2
              • get_direction_cholesky m n Xs chol + p) →
      boltzmann_anchor m P c chol Xs p
        = (P.line_intersect p (get_direction_cholesky m n Xs chol)).2
            • get_direction_cholesky m n Xs chol + p ∧
      boltzmann_other m P c chol Xs p
        = (P.line_intersect p (get_direction_cholesky m n Xs chol)).1
            • get_direction_cholesky m n Xs chol + p) ∧
    (¬ dot c ((P.line_intersect p (get_direction_cholesky m n Xs chol)).1
              • get_direction_cholesky m n Xs chol + p)
        > dot c ((P.line_intersect p (get_direction_cholesky m n Xs chol)).2
              • get_direction_cholesky m n Xs chol + p) →
      boltzmann_anchor m P c chol Xs p
        = (P.line_intersect p (get_direction_cholesky m n Xs chol)).1
            • get_direction_cholesky m n Xs chol + p ∧
      boltzmann_other m P c chol Xs p
        = (P.line_intersect p (get_direction_cholesky m n Xs chol)).2
            • get_direction_cholesky m n Xs chol + p) ∧
    dot c (boltzmann_anchor m P c chol Xs p) ≤ dot c (boltzmann_other m P c chol Xs p) ∧
    0 ≤ boltzmann_rate m P c T chol Xs p := by
  refine ⟨hit_and_run_Boltzmann_eq m texp P c T chol Xs u p, ?_, ?_, ?_, ?_⟩
  · intro h
    simp only [boltzmann_anchor, boltzmann_other, h, if_true, and_self]
  · intro h
    simp only [boltzmann_anchor, boltzmann_other, h, if_false, and_self]
  · unfold boltzmann_anchor boltzmann_other
    dsimp only
    split_ifs with h
    · exact h.le
    · exact not_lt.mp h
  · unfold boltzmann_rate
    dsimp only
    split_ifs with h
    · exact div_nonneg (sub_nonneg.mpr h.le) hT.le
    · exact div_nonneg (sub_nonneg.mpr (not_lt.mp h)) hT.le

/-- Claim C20: when the value that `texp` returns lies in
`[0, min_plus - max_minus]`, the new point of `hit_and_run_Boltzmann` is
`p + t * l` with `max_minus <= t <= min_plus`, in both branches. -/
theorem hit_and_run_Boltzmann_on_chord (m : CMath K) (texp : K → K → K → K → K)
    (P : ConvexBody K n) (c : Point K n) (T : K) (chol : Matrix (Fin n) (Fin n) K)
    (Xs : Fin n → K) (u : K) (p : Point K n)
    (h0 : 0 ≤ boltzmann_texp m texp P c T chol Xs u p)
    (h1 : boltzmann_texp m texp P c T chol Xs u p
      ≤ (P.line_intersect p (get_direction_cholesky m n Xs chol)).1
        - (P.line_intersect p (get_direction_cholesky m n Xs chol)).2) :
    ∃ t : K,
      (P.line_intersect p (get_direction_cholesky m n Xs chol)).2 ≤ t ∧
      t ≤ (P.line_intersect p (get_direction_cholesky m n Xs chol)).1 ∧
      (t = (P.line_intersect p (get_direction_cholesky m n Xs chol)).2
            + boltzmann_texp m texp P c T chol Xs u p ∨
       t = (P.line_intersect p (get_direction_cholesky m n Xs chol)).1
            - boltzmann_texp m texp P c T chol Xs u p) ∧
      hit_and_run_Boltzmann m texp P c T chol Xs u p
        = p + t • get_direction_cholesky m n Xs chol := by
  rw [hit_and_run_Boltzmann_eq]
  unfold boltzmann_lambda boltzmann_anchor
  dsimp only
  split_ifs with h
  · refine ⟨(P.line_intersect p (get_direction_cholesky m n Xs chol)).2
      + boltzmann_texp m texp P c T chol Xs u p, by linarith, by linarith, Or.inl rfl, ?_⟩
    rw [add_smul]
    abel
  · refine ⟨(P.line_intersect p (get_direction_cholesky m n Xs chol)).1
      - boltzmann_texp m texp P c T chol Xs u p, by linarith, by linarith, Or.inr rfl, ?_⟩
    rw [sub_smul, neg_smul]
    abel

end BoltzmannStep

/-- Claim C17 at a concrete input: on the interval `[-1, 1]` with `c = 1`,
temperature `1`, the identity factor and the draw `1`, from `p = 0` the rate
passed to `texp` is non-negative. -/
theorem hit_and_run_Boltzmann_anchor_witness :
    0 ≤ boltzmann_rate cmathQ interval (fun _ => 1) 1 1 (fun _ => 1) (fun _ => 0) :=
  (hit_and_run_Boltzmann_anchor cmathQ texpLinear interval (fun _ => 1) 1 1 (fun _ => 1)
    (1 / 2) (fun _ => 0) (by norm_num)).2.2.2.2

/-- Claim C20 at a concrete input: the same step with a `texp` that answers `1`,
in `[0, 2]`. -/
theorem hit_and_run_Boltzmann_on_chord_witness :
    ∃ t : ℚ,
      (interval.line_intersect (fun _ => 0)
        (get_direction_cholesky cmathQ 1 (fun _ => 1) 1)).2 ≤ t ∧
      t ≤ (interval.line_intersect (fun _ => 0)
        (get_direction_cholesky cmathQ 1 (fun _ => 1) 1)).1 ∧
      hit_and_run_Boltzmann cmathQ texpLinear interval (fun _ => 1) 1 1 (fun _ => 1)
          (1 / 2) (fun _ => 0)
        = (fun _ => 0) + t • get_direction_cholesky cmathQ 1 (fun _ => 1) 1 :=
  have h := hit_and_run_Boltzmann_on_chord cmathQ texpLinear interval (fun _ => 1) 1 1
    (fun _ => 1) (1 / 2) (fun _ => 0)
    (by
      simp [boltzmann_texp, boltzmann_rate, texpLinear, get_direction_cholesky,
        get_direction, cmathQ, interval, dot])
    (by
      simp [boltzmann_texp, boltzmann_rate, texpLinear, get_direction_cholesky,
        get_direction, cmathQ, interval, dot]
      norm_num)
  h.elim fun t ht => ⟨t, ht.1, ht.2.1, ht.2.2.2⟩

/-! ## The oracle calls of a coordinate-direction chain -/

section Calls

variable {K : Type} [LinearOrderedField K] {n : Nat}

theorem first_step_cdhr (m : CMath K) (P : ConvexBody K n) (var : Parameters K)
    (draws : Nat → Draw K n) (s : WalkState K n)
    (hb : var.ball_walk = false) (hc : var.cdhr_walk = true) :
    first_step m P var draws s =
      { p := set_coord s.p (draws s.t).coord
          (coord s.p (draws s.t).coord
            + (P.line_intersect_coord s.p (draws s.t).coord s.lamdas).1.1
            + (draws s.t).U
              * ((P.line_intersect_coord s.p (draws s.t).coord s.lamdas).1.2
                - (P.line_intersect_coord s.p (draws s.t).coord s.lamdas).1.1)),
        p_prev := s.p, rand_coord := (draws s.t).coord,
        rand_coord_prev := s.rand_coord_prev,
        lamdas := (P.line_intersect_coord s.p (draws s.t).coord s.lamdas).2,
        t := s.t + 1,
        calls := OracleCall.direct s.p (draws s.t).coord s.lamdas :: s.calls } := by
  unfold first_step
  simp only [hb, hc, Bool.false_eq_true, if_false, if_true]

theorem walk_step_cdhr (m : CMath K) (P : ConvexBody K n) (var : Parameters K)
    (draws : Nat → Draw K n) (s : WalkState K n)
    (hb : var.ball_walk = false) (hc : var.cdhr_walk = true) :
    walk_step m P var draws s =
      { p := set_coord s.p (draws s.t).coord
          (coord s.p (draws s.t).coord
            + (P.line_intersect_coord_prev s.p s.p_prev (draws s.t).coord s.rand_coord
                s.lamdas).1.1
            + (draws s.t).U
              * ((P.line_intersect_coord_prev s.p s.p_prev (draws s.t).coord s.rand_coord
                    s.lamdas).1.2
                - (P.line_intersect_coord_prev s.p s.p_prev (draws s.t).coord s.rand_coord
                    s.lamdas).1.1)),
        p_prev := s.p, rand_coord := (draws s.t).coord,
        rand_coord_prev := s.rand_coord,
        lamdas := (P.line_intersect_coord_prev s.p s.p_prev (draws s.t).coord s.rand_coord
          s.lamdas).2,
        t := s.t + 1,
        calls := OracleCall.incremental s.p s.p_prev (draws s.t).coord s.rand_coord
          s.lamdas :: s.calls } := by
  unfold walk_step hit_and_run_coord_update
  simp only [hb, hc, Bool.false_eq_true, if_false, if_true]

/-- What holds of a coordinate-direction chain after its first step and `k`
further steps: the most recent call was made at `p_prev` for `rand_coord` and
left `lamdas`, `p` differs from `p_prev` only in `rand_coord`, and each call
follows the one before it. -/
theorem cdhr_chain_calls (m : CMath K) (P : ConvexBody K n) (var : Parameters K)
    (draws : Nat → Draw K n) (p : Point K n)
    (hb : var.ball_walk = false) (hc : var.cdhr_walk = true) (k : Nat) :
    (∃ q rest,
      ((walk_step m P var draws)^[k] (first_step m P var draws (init_state P p))).calls
        = q :: rest ∧
      q.point
        = ((walk_step m P var draws)^[k]
            (first_step m P var draws (init_state P p))).p_prev ∧
      q.coordinate
        = ((walk_step m P var draws)^[k]
            (first_step m P var draws (init_state P p))).rand_coord ∧
      q.lamdas_after P
        = ((walk_step m P var draws)^[k]
            (first_step m P var draws (init_state P p))).lamdas) ∧
    (∀ i : Fin n,
      i.val ≠ ((walk_step m P var draws)^[k]
          (first_step m P var draws (init_state P p))).rand_coord →
      ((walk_step m P var draws)^[k] (first_step m P var draws (init_state P p))).p i
        = ((walk_step m P var draws)^[k]
            (first_step m P var draws (init_state P p))).p_prev i) ∧
    List.Chain' (flip (same_cache P))
      ((walk_step m P var draws)^[k] (first_step m P var draws (init_state P p))).calls ∧
    List.Chain' (flip from_previous)
      ((walk_step m P var draws)^[k] (first_step m P var draws (init_state P p))).calls ∧
    ((walk_step m P var draws)^[k]
        (first_step m P var draws (init_state P p))).calls.getLast?
      = some (OracleCall.direct p (draws 0).coord
          (List.replicate P.num_of_hyperplanes 0)) ∧
    ((walk_step m P var draws)^[k]
        (first_step m P var draws (init_state P p))).calls.length = k + 1 := by
  induction k with
  | zero =>
    rw [Function.iterate_zero, id_eq, first_step_cdhr m P var draws _ hb hc]
    refine ⟨⟨_, _, rfl, rfl, rfl, rfl⟩, ?_, ?_, ?_, rfl, rfl⟩
    · intro i hi
      exact set_coord_other _ _ _ i hi
    · exact List.chain'_singleton _
    · exact List.chain'_singleton _
  | succ k ih =>
    rw [Function.iterate_succ_apply', walk_step_cdhr m P var draws _ hb hc]
    generalize (walk_step m P var draws)^[k] (first_step m P var draws (init_state P p))
      = s at ih
    obtain ⟨⟨q, rest, hq, hpt, hco, hla⟩, hagree, hch1, hch2, hlast, hlen⟩ := ih
    refine ⟨⟨_, _, rfl, rfl, rfl, rfl⟩, ?_, ?_, ?_, ?_, ?_⟩
    · intro i hi
      exact set_coord_other _ _ _ i hi
    · show List.Chain' _ (_ :: s.calls)
      rw [hq] at hch1 ⊢
      exact List.Chain'.cons hla.symm hch1
    · show List.Chain' _ (_ :: s.calls)
      rw [hq] at hch2 ⊢
      exact List.Chain'.cons ⟨hpt.symm, hco.symm, hagree⟩ hch2
    · show (_ :: s.calls).getLast? = _
      rw [hq] at hlast ⊢
      rw [List.getLast?_cons_cons]
      exact hlast
    · show (_ :: s.calls).length = _
      rw [List.length_cons, hlen]

theorem nested_blocks_state (m : CMath K) (PBLarge PBSmall : BallPoly K n)
    (var : Parameters K) (draws : Nat → Draw K n) (walk_len : Nat) (r : Nat) :
    ∀ s : WalkState K n × List (Point K n) × Nat,
      ((nested_block m PBLarge PBSmall var draws walk_len)^[r] s).1
        = (walk_step m PBLarge.toConvexBody var draws)^[r * walk_len] s.1 := by
  induction r with
  | zero => intro s; simp
  | succ r ih =>
    intro s
    rw [Function.iterate_succ_apply', Nat.succ_mul, Nat.add_comm,
      Function.iterate_add_apply, ← ih]
    unfold nested_block
    dsimp only
    split_ifs <;> rfl

theorem rand_point_generator_nested_state (m : CMath K) (PBLarge PBSmall : BallPoly K n)
    (var : Parameters K) (draws : Nat → Draw K n) (p : Point K n)
    (rnum walk_len : Nat) (randPoints : List (Point K n)) (nump_PBSmall : Nat) :
    (rand_point_generator_nested m PBLarge PBSmall var draws p rnum walk_len randPoints
        nump_PBSmall).1
      = (walk_step m PBLarge.toConvexBody var draws)^[rnum * walk_len]
          (first_step m PBLarge.toConvexBody var draws
            (init_state PBLarge.toConvexBody p)) :=
  nested_blocks_state m PBLarge PBSmall var draws walk_len rnum _

theorem rand_point_generator_fst (m : CMath K) (P : ConvexBody K n)
    (var : Parameters K) (draws : Nat → Draw K n) (p : Point K n) (rnum walk_len : Nat)
    (randPoints : List (Point K n)) :
    (rand_point_generator m P var draws p rnum walk_len randPoints).1
      = (walk_step m P var draws)^[rnum * walk_len]
          (first_step m P var draws (init_state P p)) := by
  rw [rand_point_generator_state]

/-- Claim C18: in the CDHR branch of the polytope driver and of the nested-body
driver, the first `line_intersect_coord` call of a run is the one without
`p_prev`, made at the start point with the zero-filled `lamdas`; every later call
is the incremental one and receives `lamdas` as the call before it left it; the
run makes `1 + rnum * walk_len` calls. -/
theorem cdhr_calls_same_cache (m : CMath K) (P : ConvexBody K n)
    (PBLarge PBSmall : BallPoly K n) (var : Parameters K) (draws : Nat → Draw K n)
    (p : Point K n) (rnum walk_len : Nat) (randPoints : List (Point K n))
    (nump_PBSmall : Nat) (hb : var.ball_walk = false) (hc : var.cdhr_walk = true) :
    (rand_point_generator m P var draws p rnum walk_len randPoints).1.calls.reverse.head?
      = some (OracleCall.direct p (draws 0).coord
          (List.replicate P.num_of_hyperplanes 0)) ∧
    List.Chain' (same_cache P)
      (rand_point_generator m P var draws p rnum walk_len randPoints).1.calls.reverse ∧
    (rand_point_generator m P var draws p rnum walk_len randPoints).1.calls.length
      = 1 + rnum * walk_len ∧
    (rand_point_generator_nested m PBLarge PBSmall var draws p rnum walk_len randPoints
        nump_PBSmall).1.calls.reverse.head?
      = some (OracleCall.direct p (draws 0).coord
          (List.replicate PBLarge.num_of_hyperplanes 0)) ∧
    List.Chain' (same_cache PBLarge.toConvexBody)
      (rand_point_generator_nested m PBLarge PBSmall var draws p rnum walk_len randPoints
        nump_PBSmall).1.calls.reverse ∧
    (rand_point_generator_nested m PBLarge PBSmall var draws p rnum walk_len randPoints
        nump_PBSmall).1.calls.length = 1 + rnum * walk_len := by
  obtain ⟨_, _, h1, _, h3, h4⟩ :=
    cdhr_chain_calls m P var draws p hb hc (rnum * walk_len)
  obtain ⟨_, _, g1, _, g3, g4⟩ :=
    cdhr_chain_calls m PBLarge.toConvexBody var draws p hb hc (rnum * walk_len)
  rw [rand_point_generator_fst, rand_point_generator_nested_state]
  refine ⟨?_, List.chain'_reverse.mpr h1, by omega, ?_, List.chain'_reverse.mpr g1,
    by omega⟩
  · rw [List.head?_reverse]; exact h3
  · rw [List.head?_reverse]; exact g3

/-- Claim C19: in the CDHR branch of the polytope driver and of the nested-body
driver, at every incremental `line_intersect_coord` call `p_prev` is the point at
which the call before it was made, `rand_coord_prev` is the coordinate of that
call, and `p` agrees with `p_prev` in every coordinate other than
`rand_coord_prev`. -/
theorem cdhr_calls_from_previous (m : CMath K) (P : ConvexBody K n)
    (PBLarge PBSmall : BallPoly K n) (var : Parameters K) (draws : Nat → Draw K n)
    (p : Point K n) (rnum walk_len : Nat) (randPoints : List (Point K n))
    (nump_PBSmall : Nat) (hb : var.ball_walk = false) (hc : var.cdhr_walk = true) :
    List.Chain' from_previous
      (rand_point_generator m P var draws p rnum walk_len randPoints).1.calls.reverse ∧
    List.Chain' from_previous
      (rand_point_generator_nested m PBLarge PBSmall var draws p rnum walk_len randPoints
        nump_PBSmall).1.calls.reverse := by
  obtain ⟨_, _, _, h2, _, _⟩ :=
    cdhr_chain_calls m P var draws p hb hc (rnum * walk_len)
  obtain ⟨_, _, _, g2, _, _⟩ :=
    cdhr_chain_calls m PBLarge.toConvexBody var draws p hb hc (rnum * walk_len)
  rw [rand_point_generator_fst, rand_point_generator_nested_state]
  exact ⟨List.chain'_reverse.mpr h2, List.chain'_reverse.mpr g2⟩

end Calls

/-- Claim C18 at a concrete input: the interval `[-1, 1]`, one sample of two
steps. -/
theorem cdhr_calls_same_cache_witness :
    List.Chain' (same_cache interval)
      (rand_point_generator cmathQ interval cdhrVar unitDraws (fun _ => 0) 1 2
        []).1.calls.reverse ∧
    (rand_point_generator cmathQ interval cdhrVar unitDraws (fun _ => 0) 1 2
        []).1.calls.length = 1 + 1 * 2 :=
  have h := cdhr_calls_same_cache cmathQ interval intervalPair intervalPair cdhrVar
    unitDraws (fun _ => 0) 1 2 [] 0 rfl rfl
  ⟨h.2.1, h.2.2.1⟩

/-- Claim C19 at a concrete input: the interval `[-1, 1]`, one sample of two
steps. -/
theorem cdhr_calls_from_previous_witness :
    List.Chain' from_previous
      (rand_point_generator cmathQ interval cdhrVar unitDraws (fun _ => 0) 1 2
        []).1.calls.reverse :=
  (cdhr_calls_from_previous cmathQ interval intervalPair intervalPair cdhrVar
    unitDraws (fun _ => 0) 1 2 [] 0 rfl rfl).1

/-! ## Draws of the billiard walk, overloads, and the point on return -/

section Final

variable {K : Type} [LinearOrderedField K] {n : Nat}

/-- Claim C21, as the code has it: `billiard_walk` draws the direction `v` and the
travel length `T = U * che_rad` on every call. A steady call (`first = false`)
enters its loop with the drawn `v` and `T` and with the `lambda_prev`, `Ar` and
`Av` it was given; a bootstrap call runs the block `if (first)` from the same
variables. -/
theorem billiard_walk_draws_every_call (m : CMath K) (P : ConvexBody K n)
    (p : Point K n) (che_rad : K) (Ar Av : List K) (lambda_prev : K)
    (Xs : Fin n → K) (U : K) :
    billiard_entry m P p che_rad Ar Av lambda_prev Xs U false
      = { p := p, v := get_direction m n Xs, T := U * che_rad,
          lambda_prev := lambda_prev, Ar := Ar, Av := Av, it := 0, stopped := false,
          reflections := 0, segments := [] } ∧
    billiard_walk m P p che_rad Ar Av lambda_prev Xs U false
      = billiard_loop P (3 * n)
        { p := p, v := get_direction m n Xs, T := U * che_rad,
          lambda_prev := lambda_prev, Ar := Ar, Av := Av, it := 0, stopped := false,
          reflections := 0, segments := [] } ∧
    billiard_entry m P p che_rad Ar Av lambda_prev Xs U true
      = billiard_first P
        { p := p, v := get_direction m n Xs, T := U * che_rad,
          lambda_prev := lambda_prev, Ar := Ar, Av := Av, it := 0, stopped := false,
          reflections := 0, segments := [] } := by
  refine ⟨rfl, ?_, rfl⟩
  simp [billiard_walk, billiard_entry, billiard_init]

/-- Claim C22: the overload of `hit_and_run` with `b1` and `b2` gives `p` the same
new value as the plain one and sets `b1 = p + min_plus * l`, `b2 = p + max_minus *
l` for the old `p`, so that the new point is `lambda * b1 + (1 - lambda) * b2`;
the overload of `hit_and_run_coord_update` with `bpair` gives `p`, `p_prev` and
`lamdas` the same new values as the plain one and sets `bpair` to the pair
answered by the oracle. -/
theorem hit_and_run_overloads (m : CMath K) (P : ConvexBody K n) (Xs : Fin n → K)
    (lambda : K) (p p_prev : Point K n) (rand_coord rand_coord_prev : Nat) (kapa : K)
    (lamdas : List K) :
    (hit_and_run_endpoints m P Xs lambda p).1 = hit_and_run m P Xs lambda p ∧
    (hit_and_run_endpoints m P Xs lambda p).2.1
      = p + (P.line_intersect p (get_direction m n Xs)).1 • get_direction m n Xs ∧
    (hit_and_run_endpoints m P Xs lambda p).2.2
      = p + (P.line_intersect p (get_direction m n Xs)).2 • get_direction m n Xs ∧
    (hit_and_run_endpoints m P Xs lambda p).1
      = lambda • (hit_and_run_endpoints m P Xs lambda p).2.1
        + (1 - lambda) • (hit_and_run_endpoints m P Xs lambda p).2.2 ∧
    (hit_and_run_coord_update_bpair P p p_prev rand_coord rand_coord_prev kapa lamdas).1
      = (hit_and_run_coord_update P p p_prev rand_coord rand_coord_prev kapa lamdas).1 ∧
    (hit_and_run_coord_update_bpair P p p_prev rand_coord rand_coord_prev kapa lamdas).2.1
      = (hit_and_run_coord_update P p p_prev rand_coord rand_coord_prev kapa lamdas).2.1 ∧
    (hit_and_run_coord_update_bpair P p p_prev rand_coord rand_coord_prev kapa
        lamdas).2.2.1
      = (hit_and_run_coord_update P p p_prev rand_coord rand_coord_prev kapa lamdas).2.2 ∧
    (hit_and_run_coord_update_bpair P p p_prev rand_coord rand_coord_prev kapa
        lamdas).2.2.2
      = (P.line_intersect_coord_prev p p_prev rand_coord rand_coord_prev lamdas).1 := by
  refine ⟨rfl, ?_, ?_, ?_, rfl, rfl, rfl, rfl⟩
  · simp only [hit_and_run_endpoints, add_comm]
  · simp only [hit_and_run_endpoints, add_comm]
  · simp only [hit_and_run_endpoints]
    rw [add_comm]

theorem getLast?_range_map {α : Type} (f : Nat → α) (l : List α) (r : Nat) :
    (l ++ (List.range (r + 1)).map f).getLast? = some (f r) := by
  rw [List.range_succ, List.map_append, ← List.append_assoc]
  simp

theorem rand_point_generator_spectrahedron_state (m : CMath K) (S : Spectrahedron K n)
    (draws : Nat → Draw K n) (p : Point K n) (rnum walk_len : Nat)
    (randPoints : List (Point K n)) :
    rand_point_generator_spectrahedron m S draws p rnum walk_len randPoints
      = ((spectrahedron_step m S draws)^[rnum * walk_len] { p := p, t := 0 },
         randPoints ++ (List.range rnum).map (fun i =>
          ((spectrahedron_step m S draws)^[(i + 1) * walk_len] { p := p, t := 0 }).p)) :=
  iterate_block (spectrahedron_step m S draws) (fun w => w.p) walk_len _ randPoints rnum

theorem nested_block_fst (m : CMath K) (PBLarge PBSmall : BallPoly K n)
    (var : Parameters K) (draws : Nat → Draw K n) (walk_len : Nat)
    (s : WalkState K n × List (Point K n) × Nat) :
    (nested_block m PBLarge PBSmall var draws walk_len s).1
      = (walk_step m PBLarge.toConvexBody var draws)^[walk_len] s.1 := by
  unfold nested_block
  dsimp only
  split_ifs <;> rfl

/-- Claim C23: for `rnum >= 1`, on return from the polytope driver and from the
spectrahedron driver `p` is the last point of `randPoints`; on return from the
nested-body driver `p` is the last of the `rnum` candidate points, whatever the
test of `PBSmall` answered, and after each block the chain stands at the
candidate it reached, retained or not. -/
theorem rand_point_generator_final_point (m : CMath K) (P : ConvexBody K n)
    (S : Spectrahedron K n) (PBLarge PBSmall : BallPoly K n) (var : Parameters K)
    (draws : Nat → Draw K n) (p : Point K n) (rnum walk_len : Nat)
    (randPoints : List (Point K n)) (nump_PBSmall : Nat) (hr : 1 ≤ rnum) :
    (rand_point_generator m P var draws p rnum walk_len randPoints).2.getLast?
      = some (rand_point_generator m P var draws p rnum walk_len randPoints).1.p ∧
    (rand_point_generator_spectrahedron m S draws p rnum walk_len randPoints).2.getLast?
      = some (rand_point_generator_spectrahedron m S draws p rnum walk_len
          randPoints).1.p ∧
    ((List.range rnum).map (fun i =>
        ((walk_step m PBLarge.toConvexBody var draws)^[(i + 1) * walk_len]
          (first_step m PBLarge.toConvexBody var draws
            (init_state PBLarge.toConvexBody p))).p)).getLast?
      = some (rand_point_generator_nested m PBLarge PBSmall var draws p rnum walk_len
          randPoints nump_PBSmall).1.p ∧
    (∀ s : WalkState K n × List (Point K n) × Nat,
      (nested_block m PBLarge PBSmall var draws walk_len s).1
        = (walk_step m PBLarge.toConvexBody var draws)^[walk_len] s.1) := by
  obtain ⟨r, rfl⟩ : ∃ r, rnum = r + 1 := ⟨rnum - 1, by omega⟩
  refine ⟨?_, ?_, ?_, nested_block_fst m PBLarge PBSmall var draws walk_len⟩
  · rw [rand_point_generator_state]
    exact getLast?_range_map _ _ r
  · rw [rand_point_generator_spectrahedron_state]
    exact getLast?_range_map _ _ r
  · rw [rand_point_generator_nested_state]
    have h := getLast?_range_map (fun i =>
        ((walk_step m PBLarge.toConvexBody var draws)^[(i + 1) * walk_len]
          (first_step m PBLarge.toConvexBody var draws
            (init_state PBLarge.toConvexBody p))).p) [] r
    rw [List.nil_append] at h
    exact h

end Final

/-- Claim C21 fails as stated: on the interval `[-1, 1]`, two steady calls from
`p = 0` with the same `lambda_prev`, `Ar`, `Av` and `T = 0.5 * 3` return different
points for the drawn directions `1` and `-1`, and different points for
`U = 1/2` and `U = 1/4`: a steady call uses its own draws of `v` and `T`. -/
theorem billiard_walk_steady_uses_draws :
    (billiard_walk cmathQ interval (fun _ => 0) 3 [] [] 0 (fun _ => 1) (1 / 2) false).p
      ≠ (billiard_walk cmathQ interval (fun _ => 0) 3 [] [] 0 (fun _ => -1) (1 / 2)
          false).p ∧
    (billiard_walk cmathQ interval (fun _ => 0) 3 [] [] 0 (fun _ => 1) (1 / 2) false).p
      ≠ (billiard_walk cmathQ interval (fun _ => 0) 3 [] [] 0 (fun _ => 1) (1 / 4)
          false).p := by
  have h1 : (billiard_walk cmathQ interval (fun _ => 0) 3 [] [] 0 (fun _ => 1) (1 / 2)
      false).p 0 = 49 / 100 := by
    simp [billiard_walk, billiard_entry, billiard_init, billiard_loop,
      get_direction, cmathQ, interval]
    norm_num
  have h2 : (billiard_walk cmathQ interval (fun _ => 0) 3 [] [] 0 (fun _ => -1) (1 / 2)
      false).p 0 = -49 / 100 := by
    simp [billiard_walk, billiard_entry, billiard_init, billiard_loop,
      get_direction, cmathQ, interval]
    norm_num
  have h3 : (billiard_walk cmathQ interval (fun _ => 0) 3 [] [] 0 (fun _ => 1) (1 / 4)
      false).p 0 = 3 / 4 := by
    simp [billiard_walk, billiard_entry, billiard_init, billiard_loop,
      get_direction, cmathQ, interval]
    norm_num
  constructor
  · intro h
    rw [h, h2] at h1
    norm_num at h1
  · intro h
    rw [h, h3] at h1
    norm_num at h1

/-- Claim C23 at a concrete input: the interval `[-1, 1]`, general hit-and-run,
one sample of two steps. -/
theorem rand_point_generator_final_point_witness :
    (rand_point_generator cmathQ interval hrVar unitDraws (fun _ => 0) 1 2 []).2.getLast?
      = some (rand_point_generator cmathQ interval hrVar unitDraws (fun _ => 0) 1 2
          []).1.p :=
  (rand_point_generator_final_point cmathQ interval { boundaryOracle := fun _ _ => (0, 0) }
    intervalPair intervalPair hrVar unitDraws (fun _ => 0) 1 2 [] 0 (le_refl 1)).1

/-! ## Loops with machine counters -/

section Loops

theorem for_upto_char {σ : Type} (bound : Nat) (body : σ → σ) (hb : bound < 2 ^ 32 - 1)
    (d : Nat) :
    ∀ (i : Nat) (s : σ) (fuel : Nat), i + d = bound + 1 →
      for_upto bound body fuel i s = if d + 1 ≤ fuel then some (body^[d] s) else none := by
  induction d with
  | zero =>
    intro i s fuel hi
    cases fuel with
    | zero => simp [for_upto]
    | succ f =>
      have : ¬ i ≤ bound := by omega
      simp [for_upto, this]
  | succ d ih =>
    intro i s fuel hi
    cases fuel with
    | zero => simp [for_upto]
    | succ f =>
      have h1 : i ≤ bound := by omega
      have h2 : (i + 1) % 2 ^ 32 = i + 1 := Nat.mod_eq_of_lt (by omega)
      rw [for_upto, if_pos h1, h2, ih (i + 1) (body s) f (by omega),
        Function.iterate_succ_apply]
      by_cases hf : d + 1 ≤ f
      · rw [if_pos hf, if_pos (by omega)]
      · rw [if_neg hf, if_neg (by omega)]

theorem for_upto_eq {σ : Type} (bound : Nat) (body : σ → σ) (hb : bound < 2 ^ 32 - 1)
    (s : σ) (fuel : Nat) (hf : bound + 1 ≤ fuel) :
    for_upto bound body fuel 1 s = some (body^[bound] s) := by
  rw [for_upto_char bound body hb bound 1 s fuel (by omega), if_pos hf]

theorem for_upto_unique {σ : Type} (bound : Nat) (body : σ → σ) (hb : bound < 2 ^ 32 - 1)
    (s r : σ) (fuel : Nat) (h : for_upto bound body fuel 1 s = some r) :
    r = body^[bound] s := by
  rw [for_upto_char bound body hb bound 1 s fuel (by omega)] at h
  split_ifs at h
  exact (Option.some.inj h).symm

theorem for_upto_never {σ : Type} (bound : Nat) (body : σ → σ) (hb : 2 ^ 32 - 1 ≤ bound)
    (fuel : Nat) :
    ∀ (i : Nat) (s : σ), i < 2 ^ 32 → for_upto bound body fuel i s = none := by
  induction fuel with
  | zero => intro i s _; rfl
  | succ f ih =>
    intro i s hi
    have h1 : i ≤ bound := by omega
    rw [for_upto, if_pos h1]
    exact ih _ _ (Nat.mod_lt _ (by norm_num))

theorem for_int_below_eq {σ : Type} (bound : Nat) (body : σ → Option σ) (f : σ → σ)
    (hbody : ∀ s, body s = some (f s)) (hb : bound ≤ 2 ^ 31 - 1) (d : Nat) :
    ∀ (a : Nat) (s : σ) (fuel : Nat), a + d = bound → d + 1 ≤ fuel →
      for_int_below bound body fuel a s = some (f^[d] s) := by
  induction d with
  | zero =>
    intro a s fuel ha hf
    obtain ⟨g, rfl⟩ : ∃ g, fuel = g + 1 := ⟨fuel - 1, by omega⟩
    have : ¬ a < bound := by omega
    simp [for_int_below, this]
  | succ d ih =>
    intro a s fuel ha hf
    obtain ⟨g, rfl⟩ : ∃ g, fuel = g + 1 := ⟨fuel - 1, by omega⟩
    have h1 : a < bound := by omega
    have h2 : ¬ a = 2 ^ 31 - 1 := by omega
    rw [for_int_below, if_pos h1, if_neg h2, hbody, Option.some_bind,
      ih (a + 1) (f s) g (by omega) (by omega), Function.iterate_succ_apply]

theorem for_int_below_overflow {σ : Type} (bound : Nat) (body : σ → Option σ)
    (hb : 2 ^ 31 - 1 < bound) (fuel : Nat) :
    ∀ (a : Nat) (s : σ), a ≤ 2 ^ 31 - 1 → for_int_below bound body fuel a s = none := by
  induction fuel with
  | zero => intro a s _; rfl
  | succ g ih =>
    intro a s ha
    have h1 : a < bound := by omega
    rw [for_int_below, if_pos h1]
    by_cases h : a = 2 ^ 31 - 1
    · rw [if_pos h]
    · rw [if_neg h]
      cases body s with
      | none => rfl
      | some x => exact ih _ _ (by omega)

theorem for_int_below_body_none {σ : Type} (bound : Nat) (body : σ → Option σ)
    (hbody : ∀ s, body s = none) (hb : 1 ≤ bound) (fuel : Nat) (s : σ) :
    for_int_below bound body fuel 0 s = none := by
  cases fuel with
  | zero => rfl
  | succ g =>
    have h1 : 0 < bound := by omega
    have h2 : ¬ (0 : Nat) = 2 ^ 31 - 1 := by norm_num
    rw [for_int_below, if_pos h1, if_neg h2, hbody]
    rfl

end Loops

/-! ## The drivers with their machine counters -/

section RunTheorems

variable {K : Type} [LinearOrderedField K] {n : Nat}

/-- Claim C7, as the code has it: for `rnum < 2^32 - 1` the polytope driver and
the spectrahedron driver return (once `fuel` allows `rnum + 1` tests of the loop
condition) and have appended exactly `rnum` points after the existing contents
of `randPoints`, in generation order: the `i`-th of them (counted from `0`) is
the point of the chain after `i + 1` blocks of `walk_len` walk steps. -/
theorem rand_point_generator_run_points (m : CMath K) (P : ConvexBody K n)
    (S : Spectrahedron K n) (var : Parameters K) (draws : Nat → Draw K n)
    (p : Point K n) (rnum walk_len : Nat) (randPoints : List (Point K n)) (fuel : Nat)
    (hr : rnum < 2 ^ 32 - 1) (hf : rnum + 1 ≤ fuel) :
    rand_point_generator_run m P var draws p rnum walk_len randPoints fuel
      = some (rand_point_generator m P var draws p rnum walk_len randPoints) ∧
    (rand_point_generator m P var draws p rnum walk_len randPoints).2
      = randPoints ++ (List.range rnum).map (fun i =>
          ((walk_step m P var draws)^[(i + 1) * walk_len]
            (first_step m P var draws (init_state P p))).p) ∧
    (rand_point_generator m P var draws p rnum walk_len randPoints).2.length
      = randPoints.length + rnum ∧
    rand_point_generator_spectrahedron_run m S draws p rnum walk_len randPoints fuel
      = some (rand_point_generator_spectrahedron m S draws p rnum walk_len randPoints) ∧
    (rand_point_generator_spectrahedron m S draws p rnum walk_len randPoints).2
      = randPoints ++ (List.range rnum).map (fun i =>
          ((spectrahedron_step m S draws)^[(i + 1) * walk_len] { p := p, t := 0 }).p) ∧
    (rand_point_generator_spectrahedron m S draws p rnum walk_len randPoints).2.length
      = randPoints.length + rnum := by
  obtain ⟨h1, h2, h3, h4⟩ :=
    rand_point_generator_points m P S var draws p rnum walk_len randPoints
  exact ⟨for_upto_eq rnum _ hr _ fuel hf, h1, h2, for_upto_eq rnum _ hr _ fuel hf, h3, h4⟩

theorem boltzmann_block_run_eq (m : CMath K) (texp : K → K → K → K → K)
    (P : ConvexBody K n) (c : Point K n) (temperature : K)
    (covariance_matrix : Matrix (Fin n) (Fin n) K) (draws : Nat → Draw K n)
    (walk_length : Nat) (temp : Point K n) (fuel : Nat)
    (hw : walk_length < 2 ^ 32 - 1) (hf : walk_length + 1 ≤ fuel)
    (s : ChainState K n × List (Point K n)) :
    boltzmann_block_run m texp P c temperature covariance_matrix draws walk_length temp
        fuel s
      = some (boltzmann_block m texp P c temperature covariance_matrix draws walk_length
          temp s) := by
  unfold boltzmann_block_run boltzmann_block
  rw [for_upto_eq walk_length _ hw _ fuel hf]
  rfl

/-- Claim C9, as the code has it: for `walk_length < 2^32 - 1` and `pointsNum <=
2^31 - 1` the multi-point `rand_point_generator_Boltzmann` returns and has
appended exactly `pointsNum` points; the `k`-th of them (counted from `0`) is the
result of `walk_length` `hit_and_run_Boltzmann` steps applied to the input point
`p`, with the draws that follow those of the earlier chains; with `walk_length =
0` every appended point is `p`. -/
theorem rand_point_generator_Boltzmann_run_restarts (m : CMath K)
    (texp : K → K → K → K → K) (P : ConvexBody K n) (c : Point K n) (temperature : K)
    (covariance_matrix : Matrix (Fin n) (Fin n) K) (draws : Nat → Draw K n)
    (p : Point K n) (pointsNum walk_length : Nat) (points : List (Point K n))
    (fuel : Nat) (hw : walk_length < 2 ^ 32 - 1) (hp : pointsNum ≤ 2 ^ 31 - 1)
    (hf1 : walk_length + 1 ≤ fuel) (hf2 : pointsNum + 1 ≤ fuel) :
    rand_point_generator_Boltzmann_points_run m texp P c temperature covariance_matrix
        draws p pointsNum walk_length points fuel
      = some (rand_point_generator_Boltzmann_points m texp P c temperature
          covariance_matrix draws p pointsNum walk_length points) ∧
    (∀ s : ChainState K n,
      rand_point_generator_Boltzmann_run m texp P c temperature covariance_matrix draws
          walk_length s fuel
        = some (rand_point_generator_Boltzmann m texp P c temperature covariance_matrix
            draws walk_length s)) ∧
    (rand_point_generator_Boltzmann_points m texp P c temperature covariance_matrix draws
        p pointsNum walk_length points).2
      = points ++ (List.range pointsNum).map (fun k =>
          (rand_point_generator_Boltzmann m texp P c temperature covariance_matrix draws
            walk_length { p := p, t := k * walk_length }).p) ∧
    (rand_point_generator_Boltzmann_points m texp P c temperature covariance_matrix draws
        p pointsNum walk_length points).2.length = points.length + pointsNum ∧
    (rand_point_generator_Boltzmann_points m texp P c temperature covariance_matrix draws
        p pointsNum 0 points).2 = points ++ List.replicate pointsNum p := by
  obtain ⟨h1, h2, h3⟩ := rand_point_generator_Boltzmann_restarts m texp P c temperature
    covariance_matrix draws p pointsNum walk_length points
  refine ⟨?_, fun s => for_upto_eq walk_length _ hw s fuel hf1, h1, h2, h3⟩
  exact for_int_below_eq pointsNum _ _
    (boltzmann_block_run_eq m texp P c temperature covariance_matrix draws walk_length p
      fuel hw hf1) hp pointsNum 0 _ fuel (by omega) hf2

/-- Claim C16, as the code has it: for `rnum < 2^32 - 1` the polytope driver
returns; in every mode it has made one walk step before its loops and `walk_len`
steps for each sample, `1 + rnum * walk_len` in all; when ball walk or general
hit-and-run is selected that first step is an ordinary walk step, so the `i`-th
sample (from `0`) is the chain point after `(i + 1) * walk_len + 1` steps from
the start point; with `rnum = 0` the point `p` is the result of that one step. -/
theorem rand_point_generator_run_steps (m : CMath K) (P : ConvexBody K n)
    (var : Parameters K) (draws : Nat → Draw K n) (p : Point K n) (rnum walk_len : Nat)
    (randPoints : List (Point K n)) (fuel : Nat)
    (hr : rnum < 2 ^ 32 - 1) (hf : rnum + 1 ≤ fuel) :
    rand_point_generator_run m P var draws p rnum walk_len randPoints fuel
      = some (rand_point_generator m P var draws p rnum walk_len randPoints) ∧
    (rand_point_generator m P var draws p rnum walk_len randPoints).1
      = (walk_step m P var draws)^[rnum * walk_len]
          (first_step m P var draws (init_state P p)) ∧
    (rand_point_generator m P var draws p rnum walk_len randPoints).1.t
      = 1 + rnum * walk_len ∧
    (rand_point_generator m P var draws p 0 walk_len randPoints).1.p
      = (first_step m P var draws (init_state P p)).p ∧
    ((var.ball_walk = true ∨ var.cdhr_walk = false) →
      (rand_point_generator m P var draws p rnum walk_len randPoints).1
        = (walk_step m P var draws)^[rnum * walk_len + 1] (init_state P p) ∧
      (rand_point_generator m P var draws p rnum walk_len randPoints).2
        = randPoints ++ (List.range rnum).map (fun i =>
            ((walk_step m P var draws)^[(i + 1) * walk_len + 1] (init_state P p)).p)) := by
  obtain ⟨h1, h2, h3, h4⟩ :=
    rand_point_generator_steps m P var draws p rnum walk_len randPoints
  exact ⟨for_upto_eq rnum _ hr _ fuel hf, h1, h2, h3, h4⟩

end RunTheorems

/-- Claim C7 at a concrete input: the interval `[-1, 1]`, general hit-and-run, one
sample of two steps, the loop condition tested twice. -/
theorem rand_point_generator_run_points_witness :
    (1 : Nat) < 2 ^ 32 - 1 ∧
    rand_point_generator_run cmathQ interval hrVar unitDraws (fun _ => 0) 1 2 [] 2
      = some (rand_point_generator cmathQ interval hrVar unitDraws (fun _ => 0) 1 2 []) ∧
    (rand_point_generator cmathQ interval hrVar unitDraws (fun _ => 0) 1 2 []).2.length
      = 0 + 1 :=
  ⟨by norm_num,
   (rand_point_generator_run_points cmathQ interval { boundaryOracle := fun _ _ => (0, 0) }
      hrVar unitDraws (fun _ => 0) 1 2 [] 2 (by norm_num) (le_refl 2)).1,
   (rand_point_generator_run_points cmathQ interval { boundaryOracle := fun _ _ => (0, 0) }
      hrVar unitDraws (fun _ => 0) 1 2 [] 2 (by norm_num) (le_refl 2)).2.2.1⟩

/-- Claim C7 fails as stated: with `rnum = 2^32 - 1` the condition `i <= rnum` of
the outer loop holds for every value of the unsigned counter, so neither driver
returns, whatever the number of iterations allowed. -/
theorem rand_point_generator_run_never_exits :
    (¬ ∃ fuel : Nat, (rand_point_generator_run cmathQ interval hrVar unitDraws
        (fun _ => 0) (2 ^ 32 - 1) 1 [] fuel).isSome = true) ∧
    (¬ ∃ fuel : Nat, (rand_point_generator_spectrahedron_run cmathQ
        { boundaryOracle := fun _ _ => (0, 0) } unitDraws (fun _ => 0) (2 ^ 32 - 1) 1 []
        fuel).isSome = true) := by
  constructor
  · rintro ⟨fuel, h⟩
    unfold rand_point_generator_run at h
    dsimp only at h
    rw [for_upto_never _ _ (le_refl _) fuel 1 _ (by norm_num)] at h
    simp at h
  · rintro ⟨fuel, h⟩
    unfold rand_point_generator_spectrahedron_run at h
    rw [for_upto_never _ _ (le_refl _) fuel 1 _ (by norm_num)] at h
    simp at h

/-- Claim C9 at a concrete input: the interval `[-1, 1]`, two chains of one step
from the seed `0`. -/
theorem rand_point_generator_Boltzmann_run_restarts_witness :
    (1 : Nat) < 2 ^ 32 - 1 ∧ (2 : Nat) ≤ 2 ^ 31 - 1 ∧
    rand_point_generator_Boltzmann_points_run cmathQ texpLinear interval (fun _ => 1) 1 1
        unitDraws (fun _ => 0) 2 1 [] 3
      = some (rand_point_generator_Boltzmann_points cmathQ texpLinear interval
          (fun _ => 1) 1 1 unitDraws (fun _ => 0) 2 1 []) ∧
    (rand_point_generator_Boltzmann_points cmathQ texpLinear interval (fun _ => 1) 1 1
        unitDraws (fun _ => 0) 2 1 []).2.length = 0 + 2 :=
  ⟨by norm_num, by norm_num,
   (rand_point_generator_Boltzmann_run_restarts cmathQ texpLinear interval (fun _ => 1) 1 1
      unitDraws (fun _ => 0) 2 1 [] 3 (by norm_num) (by norm_num) (by norm_num)
      (le_refl 3)).1,
   (rand_point_generator_Boltzmann_run_restarts cmathQ texpLinear interval (fun _ => 1) 1 1
      unitDraws (fun _ => 0) 2 1 [] 3 (by norm_num) (by norm_num) (by norm_num)
      (le_refl 3)).2.2.2.1⟩

/-- Claim C9 fails as stated: with `walk_length = 2^32 - 1` the condition `i <=
walk_length` holds for every value of the unsigned counter, so neither overload
returns; and with `pointsNum = 2^31` the counter `int at` reaches `2^31 - 1` with
the loop condition true and `at++` overflows, so there is no defined result. -/
theorem rand_point_generator_Boltzmann_run_never_exits :
    (¬ ∃ fuel : Nat, (rand_point_generator_Boltzmann_run cmathQ texpLinear interval
        (fun _ => 1) 1 1 unitDraws (2 ^ 32 - 1) { p := fun _ => 0, t := 0 }
        fuel).isSome = true) ∧
    (¬ ∃ fuel : Nat, (rand_point_generator_Boltzmann_points_run cmathQ texpLinear interval
        (fun _ => 1) 1 1 unitDraws (fun _ => 0) 1 (2 ^ 32 - 1) [] fuel).isSome = true) ∧
    (¬ ∃ fuel : Nat, (rand_point_generator_Boltzmann_points_run cmathQ texpLinear interval
        (fun _ => 1) 1 1 unitDraws (fun _ => 0) (2 ^ 31) 0 [] fuel).isSome = true) := by
  refine ⟨?_, ?_, ?_⟩
  · rintro ⟨fuel, h⟩
    unfold rand_point_generator_Boltzmann_run at h
    rw [for_upto_never _ _ (le_refl _) fuel 1 _ (by norm_num)] at h
    simp at h
  · rintro ⟨fuel, h⟩
    unfold rand_point_generator_Boltzmann_points_run at h
    dsimp only at h
    rw [for_int_below_body_none 1 _ (fun s => by
      unfold boltzmann_block_run
      rw [for_upto_never _ _ (le_refl _) fuel 1 _ (by norm_num)]
      rfl) (le_refl 1)] at h
    simp at h
  · rintro ⟨fuel, h⟩
    unfold rand_point_generator_Boltzmann_points_run at h
    dsimp only at h
    rw [for_int_below_overflow _ _ (by norm_num) fuel 0 _ (by norm_num)] at h
    simp at h

/-- Claim C16 at a concrete input: the interval `[-1, 1]`, general hit-and-run, one
sample of two steps: three steps in all. -/
theorem rand_point_generator_run_steps_witness :
    (1 : Nat) < 2 ^ 32 - 1 ∧
    rand_point_generator_run cmathQ interval hrVar unitDraws (fun _ => 0) 1 2 [] 2
      = some (rand_point_generator cmathQ interval hrVar unitDraws (fun _ => 0) 1 2 []) ∧
    (rand_point_generator cmathQ interval hrVar unitDraws (fun _ => 0) 1 2 []).1.t
      = 1 + 1 * 2 :=
  ⟨by norm_num,
   (rand_point_generator_run_steps cmathQ interval hrVar unitDraws (fun _ => 0) 1 2 [] 2
      (by norm_num) (le_refl 2)).1,
   (rand_point_generator_run_steps cmathQ interval hrVar unitDraws (fun _ => 0) 1 2 [] 2
      (by norm_num) (le_refl 2)).2.2.1⟩

/-! ## Ball walk on `double`s that may not be finite -/

section BallWalkFp

variable {K : Type} [LinearOrderedField K] {n : Nat}

theorem get_direction_fp_eq (m : CMath K) (dim : Nat) (Xs : Fin dim → K)
    (h : m.sqrt (∑ i, Xs i * Xs i) ≠ 0) :
    get_direction_fp m dim Xs = fun i => some (get_direction m dim Xs i) := by
  funext i
  simp [get_direction_fp, get_direction, fp_div, fp_mul, h]

theorem get_point_in_Dsphere_fp_eq (m : CMath K) (dim : Nat) (radius : K)
    (Xs : Fin dim → K) (U : K) (h : m.sqrt (∑ i, Xs i * Xs i) ≠ 0)
    (hd : (dim : K) ≠ 0) :
    get_point_in_Dsphere_fp m dim radius Xs U
      = fun i => some (get_point_in_Dsphere m dim radius Xs U i) := by
  funext i
  simp [get_point_in_Dsphere_fp, get_point_in_Dsphere, get_direction_fp_eq m dim Xs h,
    fp_div, fp_mul, hd]

theorem ball_walk_fp_eq (m : CMath K) (P : ConvexBody K n)
    (is_in : (Fin n → Option K) → Int)
    (his : ∀ q : Point K n, is_in (fun i => some (q i)) = P.is_in q) (delta : K)
    (Xs : Fin n → K) (U : K) (h : m.sqrt (∑ i, Xs i * Xs i) ≠ 0) (hd : (n : K) ≠ 0)
    (p : Point K n) :
    ball_walk_fp m is_in delta Xs U (fun i => some (p i))
      = fun i => some (ball_walk m P delta Xs U p i) := by
  have hy : (fun i => fp_add (get_point_in_Dsphere_fp m n delta Xs U i) (some (p i)))
      = fun i => some ((get_point_in_Dsphere m n delta Xs U + p) i) := by
    funext i
    rw [get_point_in_Dsphere_fp_eq m n delta Xs U h hd]
    rfl
  unfold ball_walk_fp ball_walk
  dsimp only
  rw [hy, his]
  split_ifs <;> rfl

end BallWalkFp

end Samplers
